import Mathlib

/-!
# Verification of the Intelligent-Mashup-Studio recipe/rendering core

A shallow embedding of the Python sources `creator.py`, `engine.py` and
`reviser.py` of the Intelligent-Mashup-Studio repository, together with
theorems settling the frozen claims about them.

Modelling conventions:
* Python floats are modelled as exact rationals (`ℚ`) for the data that the
  code only moves around, and as real numbers (`ℝ`) for the derived values
  that involve square roots (`np.linalg.norm`, `np.std`).
* numpy matrices are modelled as row lists `List (List ℚ)`.  Real numpy
  arrays are always rectangular; operations below read the column count off
  the first row, exactly as `shape[1]` does for a rectangular array.
* Python exceptions are modelled with `Except String`; an uncaught exception
  aborts the surrounding computation, which is exactly `Except.bind`'s
  propagation.  Error message strings are abbreviated versions of the
  originals (they carry no formatted numbers).
* Python `dict`s are association lists in insertion order; inserting an
  existing key overwrites the value in place (CPython semantics), which is
  what `dictInsert` below does.
* pydub's `AudioSegment` is modelled by its duration in milliseconds: the
  engine never inspects audio content, and every pydub operation used by the
  code (`silent`, slicing, `overlay`, `append` with crossfade, `normalize`)
  has a well-known duration semantics which is modelled faithfully.
-/

/-- A numpy 2-D array: a list of rows. -/
abbrev Mat : Type := List (List ℚ)

/-- Number of rows (`shape[0]`). -/
def rowsOf (m : Mat) : ℕ := m.length

/-- Number of columns (`shape[1]`); for a rectangular array this is the
length of the first row, and `0` for an empty array. -/
def colsOf (m : Mat) : ℕ := (m.headD []).length

/-- Entry access with numpy's implicit rectangular layout; out-of-range
reads default to `0` (they are only ever performed in range). -/
def entryAt (m : Mat) (i j : ℕ) : ℚ := (m.getD i []).getD j 0

/-- Column slice `m[:, a:b]` with Python clamping semantics for
non-negative bounds. -/
def sliceCols (m : Mat) (a b : ℕ) : Mat := m.map (fun row => (row.drop a).take (b - a))

/-- Squared Frobenius norm: the sum of the squares of all entries
(`np.linalg.norm(m) ** 2`). -/
def sumSq (m : Mat) : ℚ := (m.map (fun row => (row.map (fun x => x ^ 2)).sum)).sum

/-- Sum of squares of a flat vector (`np.linalg.norm(v) ** 2`). -/
def sumSqV (v : List ℚ) : ℚ := (v.map (fun x => x ^ 2)).sum

/-- `np.dot` of two 1-D arrays of equal length (callers check length). -/
def dotQ (a b : List ℚ) : ℚ := ((a.zip b).map (fun p => p.1 * p.2)).sum

/-- `np.max` of a flat list (callers guarantee non-emptiness). -/
def npMax (l : List ℚ) : ℚ :=
  match l with
  | [] => 0
  | x :: xs => xs.foldl max x

/-- Mean of a list (`np.mean` along an axis); numpy would warn and yield NaN
on an empty axis, a case no claim exercises — it is mapped to `0`. -/
def meanQ (l : List ℚ) : ℚ := l.sum / l.length

/-- Population variance, the square of `np.std`. -/
def varQ (l : List ℚ) : ℚ := ((l.map (fun x => (x - meanQ l) ^ 2)).sum) / l.length

/-- One entry of `scipy.signal.correlate2d(A, B, mode="valid")`:
`out[k, l] = Σ_{i,j} A[k+i, l+j] * B[i, j]`. -/
def corrEntry (A B : Mat) (k l : ℕ) : ℚ :=
  ∑ i ∈ Finset.range (rowsOf B), ∑ j ∈ Finset.range (colsOf B),
    entryAt A (k + i) (l + j) * entryAt B i j

/-- The full valid-mode cross-correlation array, of shape
`(rowsOf A - rowsOf B + 1) × (colsOf A - colsOf B + 1)`.  The shape guard is
the caller's (`harmonicSim`). -/
def corrValid (A B : Mat) : Mat :=
  (List.range (rowsOf A - rowsOf B + 1)).map (fun k =>
    (List.range (colsOf A - colsOf B + 1)).map (fun l => corrEntry A B k l))

/-- `np.resize(m, (r, c))`: repeat the row-major flattening of `m`
cyclically to fill the new shape; an empty source array yields zeros. -/
def npResize (m : Mat) (r c : ℕ) : Mat :=
  let fl := m.flatten
  (List.range r).map (fun i =>
    (List.range c).map (fun j =>
      if fl.length = 0 then 0 else fl.getD ((i * c + j) % fl.length) 0))

/-- The value of `a + b` under numpy 2-D broadcasting (a dimension of size
1 is stretched to the other operand's). -/
def matAddV (a b : Mat) : Mat :=
  let r1 := rowsOf a; let c1 := colsOf a
  let r2 := rowsOf b; let c2 := colsOf b
  let rr := if r1 = 1 then r2 else r1
  let cc := if c1 = 1 then c2 else c1
  (List.range rr).map (fun i =>
    (List.range cc).map (fun j =>
      entryAt a (if r1 = 1 then 0 else i) (if c1 = 1 then 0 else j) +
      entryAt b (if r2 = 1 then 0 else i) (if c2 = 1 then 0 else j)))

/-- Elementwise `a + b` with numpy 2-D broadcasting: each dimension must
match or be 1 on one side, otherwise numpy raises a broadcast `ValueError`. -/
def matAddB (a b : Mat) : Except String Mat :=
  if (rowsOf a = rowsOf b ∨ rowsOf a = 1 ∨ rowsOf b = 1) ∧
      (colsOf a = colsOf b ∨ colsOf a = 1 ∨ colsOf b = 1) then
    Except.ok (matAddV a b)
  else Except.error "ValueError: operands could not be broadcast together"

/-- The `1e-9` guard used throughout `_calculate_mashability`. -/
def epsQ : ℚ := 1 / 1000000000

/-- Python `int()` on a rational value: truncation toward zero. -/
def pyInt (q : ℚ) : ℤ := if 0 ≤ q then ⌊q⌋ else -⌊-q⌋

/-- `brief["song_info"]`. -/
structure SongInfo where
  title : String
  sourceFile : String
  deriving DecidableEq

/-- One entry of `analysis_results["segments"]`. -/
structure SegInfo where
  startTime : ℚ
  endTime : ℚ
  startBeat : ℕ
  endBeat : ℕ
  deriving DecidableEq

/-- `analysis_results["features_v2"]`: the three beat-indexed matrices. -/
structure FeatSet where
  chroma : Mat
  rhythm : Mat
  spectral : Mat
  deriving DecidableEq

/-- `brief["analysis_results"]` (the unused `lyrics` placeholder string is
not modelled). -/
structure AnalysisRes where
  tempo : ℚ
  estimatedKey : String
  segments : List (String × SegInfo)
  features : FeatSet
  deriving DecidableEq

/-- A creative brief, the per-song analysis document. -/
structure Brief where
  songInfo : SongInfo
  analysisResults : AnalysisRes
  deriving DecidableEq

/-- One layer of a timeline item: `{"source": ..., "segment": ...}`.
The optional `pitch_shift_semitones` key is never produced by the creator
and is exercised by no claim; the corresponding branch of
`engine.execute_recipe` (lines 75–78) is therefore not modelled. -/
structure LayerSpec where
  source : String
  segment : String
  deriving DecidableEq

/-- One timeline entry of a recipe.  `layers` is a dict from role name to a
layer spec; a `none` value models a JSON `null` layer, which the engine
skips (`if not details: continue`). -/
structure TimelineItem where
  timeMs : String
  description : String
  layers : List (String × Option LayerSpec)
  deriving DecidableEq

/-- The recipe document produced by `create_mashup_recipe`. -/
structure Recipe where
  version : ℕ
  mashupTitle : String
  concept : String
  targetTempo : ℚ
  targetKey : String
  timeline : List TimelineItem
  briefs : List Brief
  deriving DecidableEq

/-- First-match lookup in an association list (keys are unique by
construction, as in a Python dict). -/
def findMap {α : Type} (k : String) : List (String × α) → Option α
  | [] => none
  | (k2, v) :: rest => if k2 = k then some v else findMap k rest

/-- `d[k] = v` on a CPython dict: overwrite in place if the key exists
(keeping its position), else append. -/
def dictInsert {α : Type} (k : String) (v : α) : List (String × α) → List (String × α)
  | [] => [(k, v)]
  | (k2, v2) :: rest => if k2 = k then (k2, v) :: rest else (k2, v2) :: dictInsert k v rest

/-- Fold a brief list into a dict, as the comprehension
`{b["song_info"]["title"]: b for b in briefs}` does (later same-titled
briefs overwrite earlier ones). -/
def insManyB (m : List (String × Brief)) : List Brief → List (String × Brief)
  | [] => m
  | b :: rest => insManyB (dictInsert b.songInfo.title b m) rest

/-- The brief dict built by `MashupCreator.__init__` (creator.py line 14)
and `AudioEngine.__init__` (engine.py line 19) — the identical
comprehension in both files. -/
def mkBriefMap (bs : List Brief) : List (String × Brief) := insManyB [] bs

/-- Loop of Python `max(d, key=d.get)`: keep the current best key, replace
only on a strictly larger value (so ties keep the earliest key). -/
def argmaxGo (k : String) (v : ℚ) : List (String × ℚ) → String
  | [] => k
  | (k2, v2) :: rest => if v < v2 then argmaxGo k2 v2 rest else argmaxGo k v rest

/-- `max(tempos, key=tempos.get)`: first key attaining the maximum value. -/
def argmaxFirst (l : List (String × ℚ)) : String :=
  match l with
  | [] => ""
  | (k, v) :: rest => argmaxGo k v rest

/-- Loop of Python `min(d, key=d.get)`. -/
def argminGo (k : String) (v : ℚ) : List (String × ℚ) → String
  | [] => k
  | (k2, v2) :: rest => if v2 < v then argminGo k2 v2 rest else argminGo k v rest

/-- `min(tempos, key=tempos.get)`: first key attaining the minimum value. -/
def argminFirst (l : List (String × ℚ)) : String :=
  match l with
  | [] => ""
  | (k, v) :: rest => argminGo k v rest

/-- The state built by `MashupCreator.__init__`: the brief dict and the two
selected role titles. -/
structure Creator where
  briefs : List (String × Brief)
  primaryTitle : String
  secondaryTitle : String
  deriving DecidableEq

/-- `MashupCreator.__init__` together with `_select_roles` (creator.py
lines 11–21): reject fewer than two briefs, index the briefs by title, pick
the highest-tempo title as primary and the lowest-tempo title as
secondary. -/
def mkCreator (bs : List Brief) : Except String Creator :=
  if bs.length < 2 then
    Except.error "MashupCreator requires at least two creative briefs."
  else
    let m := mkBriefMap bs
    let tempos := m.map (fun p => (p.1, p.2.analysisResults.tempo))
    Except.ok ⟨m, argmaxFirst tempos, argminFirst tempos⟩

/-- The real-valued `1e-9` guard. -/
noncomputable def epsR : ℝ := (epsQ : ℝ)

/-- The harmonic similarity value of `_calculate_mashability` lines 24–30:
stack the secondary chroma on top of itself, take the maximum valid-mode
2-D cross-correlation against the primary chroma and divide by the product
of the two Frobenius norms plus `1e-9`. -/
noncomputable def harmonicVal (c1 c2 : Mat) : ℝ :=
  ((npMax (corrValid (c2 ++ c2) c1).flatten : ℚ) : ℝ) /
    (Real.sqrt (sumSq c1) * Real.sqrt (sumSq c2) + epsR)

/-- Harmonic similarity including scipy's shape check: `correlate2d` in
valid mode raises `ValueError` when the kernel exceeds the stacked array in
some dimension (scipy would instead swap the arrays when the kernel is
strictly larger in *every* dimension, a case that cannot arise here because
the two chroma slices have equal column counts whenever this runs). -/
noncomputable def harmonicSim (c1 c2 : Mat) : Except String ℝ :=
  if rowsOf (c2 ++ c2) < rowsOf c1 ∨ colsOf (c2 ++ c2) < colsOf c1 then
    Except.error "ValueError: correlate2d valid mode"
  else
    Except.ok (harmonicVal c1 c2)

/-- The rhythmic cosine similarity of `_calculate_mashability` lines 32–34
on the two flattened rhythm slices. -/
noncomputable def rhythmicVal (r1 r2 : List ℚ) : ℝ :=
  ((dotQ r1 r2 : ℚ) : ℝ) / (Real.sqrt (sumSqV r1) * Real.sqrt (sumSqV r2) + epsR)

/-- The sum-normalised vector of row means of the combined spectral
matrix (`_calculate_mashability` lines 38–39). -/
def spectralNorm (cs : Mat) : List ℚ :=
  let combined := cs.map meanQ
  combined.map (fun x => x / (combined.sum + epsQ))

/-- The spectral balance `1 - np.std(normalized_spec)` of
`_calculate_mashability` line 40. -/
noncomputable def spectralBal (cs : Mat) : ℝ :=
  1 - Real.sqrt (varQ (spectralNorm cs))

/-- The weighted composite score of `_calculate_mashability` lines 42–43,
as a function of the harmonic value and the inputs of the other two
sub-scores. -/
noncomputable def mashScoreVal (h : ℝ) (r1 r2 : List ℚ) (cs : Mat) : ℝ :=
  (1 : ℝ) * h + (0.2 : ℝ) * rhythmicVal r1 r2 + (0.2 : ℝ) * spectralBal cs

/-- `MashupCreator._calculate_mashability` (creator.py lines 23–45).
The rhythm check models `np.dot`'s `ValueError` on 1-D arrays of unequal
length — the source flattens both rhythm slices and dots them without any
resizing.  The spectral step models `spec1 + spec2` with numpy
broadcasting, then the row means, the sum-normalisation and
`1 - np.std(...)`. -/
noncomputable def mashability (f1 f2 : FeatSet) : Except String ℝ := do
  let h ← harmonicSim f1.chroma f2.chroma
  if f1.rhythm.flatten.length ≠ f2.rhythm.flatten.length then
    Except.error "ValueError: shapes not aligned"
  else do
    let cs ← matAddB f1.spectral f2.spectral
    Except.ok (mashScoreVal h f1.rhythm.flatten f2.rhythm.flatten cs)

/-- Slice all three feature matrices to a beat range, as creator.py lines
59–63 and 70–74 do with `np.array(...)[:, start:end]`. -/
def sliceFeats (f : FeatSet) (a b : ℕ) : FeatSet :=
  ⟨sliceCols f.chroma a b, sliceCols f.rhythm a b, sliceCols f.spectral a b⟩

/-- Python truthiness of `best_match["seg_name"]`: `None` and the empty
string are falsy. -/
def truthyName (o : Option String) : Bool :=
  match o with
  | none => false
  | some s => !(s = "")

/-- The timeline item built at creator.py lines 87–94. -/
def mkItem (pt st segName bestName : String) (pSeg : SegInfo) : TimelineItem :=
  { timeMs := toString (pyInt (pSeg.startTime * 1000)) ++ "-" ++
      toString (pyInt (pSeg.endTime * 1000)),
    description := "Pairing " ++ segName ++ " with " ++ bestName,
    layers := [("instrumental", some ⟨pt, segName⟩),
               ("vocals", some ⟨st, bestName⟩)] }

/-- The inner candidate loop of `create_mashup_recipe` (creator.py lines
65–84): for each secondary segment apply the 8-beat duration gate, skip
empty chroma slices, resize the secondary *chroma only* when the widths
differ, score, and keep the strictly-best candidate seen so far. -/
noncomputable def scoreLoop (sb : Brief) (pStart pEnd : ℕ) (pF : FeatSet) :
    List (String × SegInfo) → Option String × ℝ → Except String (Option String × ℝ)
  | [], acc => Except.ok acc
  | (sName, sSeg) :: rest, acc =>
    if (((pEnd : ℤ) - (pStart : ℤ)) - ((sSeg.endBeat : ℤ) - (sSeg.startBeat : ℤ))).natAbs > 8 then
      scoreLoop sb pStart pEnd pF rest acc
    else
      let sF := sliceFeats sb.analysisResults.features sSeg.startBeat sSeg.endBeat
      if colsOf pF.chroma = 0 ∨ colsOf sF.chroma = 0 then
        scoreLoop sb pStart pEnd pF rest acc
      else
        let sF2 := if colsOf pF.chroma ≠ colsOf sF.chroma
          then { sF with chroma := npResize sF.chroma (rowsOf pF.chroma) (colsOf pF.chroma) }
          else sF
        do
          let sc ← mashability pF sF2
          if acc.2 < sc then scoreLoop sb pStart pEnd pF rest (some sName, sc)
          else scoreLoop sb pStart pEnd pF rest acc

/-- The outer segment loop of `create_mashup_recipe` (creator.py lines
55–94): slice the primary features, find the best gate-passing secondary
segment, and append a timeline item when one was found (a falsy
`seg_name` — `None` or the empty string — emits nothing). -/
noncomputable def timelineLoop (pt st : String) (pb sb : Brief) :
    List (String × SegInfo) → List TimelineItem → Except String (List TimelineItem)
  | [], acc => Except.ok acc
  | (segName, pSeg) :: rest, acc => do
    let pF := sliceFeats pb.analysisResults.features pSeg.startBeat pSeg.endBeat
    let best ← scoreLoop sb pSeg.startBeat pSeg.endBeat pF
      sb.analysisResults.segments (none, (-1 : ℝ))
    let acc2 := if truthyName best.1
      then acc ++ [mkItem pt st segName (best.1.getD "") pSeg]
      else acc
    timelineLoop pt st pb sb rest acc2

/-- `MashupCreator.create_mashup_recipe` (creator.py lines 47–106).  The
`dict[...]` accesses for the two role titles are modelled with the same
`KeyError` they would raise if the key were absent (it never is for a
constructed `Creator`). -/
noncomputable def createRecipe (c : Creator) : Except String Recipe :=
  match findMap c.primaryTitle c.briefs, findMap c.secondaryTitle c.briefs with
  | some pb, some sb => do
    let tl ← timelineLoop c.primaryTitle c.secondaryTitle pb sb
      pb.analysisResults.segments []
    Except.ok
      { version := 2,
        mashupTitle := c.primaryTitle ++ " vs " ++ c.secondaryTitle,
        concept := "A robustly generated mashup based on harmonic, rhythmic, and spectral compatibility.",
        targetTempo := pb.analysisResults.tempo,
        targetKey := pb.analysisResults.estimatedKey,
        timeline := tl,
        briefs := [pb, sb] }
  | _, _ => Except.error "KeyError"

/-- Split a character list at every occurrence of `sep`, like
`str.split(sep)` for a single-character separator. -/
def splitCharList (sep : Char) : List Char → List (List Char)
  | [] => [[]]
  | c :: rest =>
    match splitCharList sep rest with
    | h :: t => if c = sep then [] :: h :: t else (c :: h) :: t
    | [] => [[c]]

/-- `os.path.basename`: the part after the last slash. -/
def basenameOf (s : String) : String :=
  String.mk ((splitCharList '/' s.data).getLastD [])

/-- Root part of `os.path.splitext` on a basename: drop the extension after
the last dot, except when everything before that dot is dots (hidden files
such as `.bashrc` keep their full name). -/
def splitextRoot (s : String) : String :=
  let parts := splitCharList '.' s.data
  if parts.length ≤ 1 then s
  else
    let root := (parts.dropLast.intersperse ['.']).flatten
    if root.all (fun c => c = '.') then s else String.mk root

/-- The stem cache path of engine.py line 28:
`workspace/stems/htdemucs/<source-file-basename-without-extension>/<stem file>`. -/
def stemPathOf (b : Brief) (stemFile : String) : String :=
  "workspace/stems/htdemucs/" ++ splitextRoot (basenameOf b.songInfo.sourceFile)
    ++ "/" ++ stemFile

/-- The stem file name chosen at engine.py line 24. -/
def stemFileFor (stemType : String) : String :=
  if stemType = "vocals" then "vocals.wav" else "no_vocals.wav"

/-- The file-system and audio-duration environment a render runs against:
which paths exist, and the duration in milliseconds of the audio file at a
path. -/
structure RenderEnv where
  fsExists : String → Bool
  durMs : String → ℕ

/-- The state built by `AudioEngine.__init__` (engine.py lines 14–21). -/
structure Engine where
  recipe : Recipe
  briefs : List (String × Brief)

/-- `AudioEngine.__init__`: index the recipe's embedded briefs by title
(the same dict comprehension as the creator's) and fail when there are
none. -/
def mkEngine (r : Recipe) : Except String Engine :=
  let m := mkBriefMap r.briefs
  if m.isEmpty then
    Except.error "Engine requires creative briefs embedded in the recipe."
  else Except.ok ⟨r, m⟩

/-- `AudioEngine._get_stem` (engine.py lines 23–34): load the role-specific
stem if its file exists, otherwise fall back to the full source audio file,
otherwise raise.  The loaded audio is represented by the path that
`AudioSegment.from_file` would read. -/
def getStem (env : RenderEnv) (eng : Engine) (songTitle stemType : String) :
    Except String String :=
  let fname := stemFileFor stemType
  match findMap songTitle eng.briefs with
  | none => Except.error "Brief for song not found in recipe."
  | some b =>
    let sp := stemPathOf b fname
    if env.fsExists sp then Except.ok sp
    else if env.fsExists b.songInfo.sourceFile then Except.ok b.songInfo.sourceFile
    else Except.error "Fatal: Neither stem nor source audio file found"

/-- `AudioEngine._get_segment_milliseconds` (engine.py lines 36–43). -/
def getSegMs (eng : Engine) (songTitle segName : String) : Except String (ℤ × ℤ) :=
  match findMap songTitle eng.briefs with
  | none => Except.error "KeyError"
  | some b =>
    match findMap segName b.analysisResults.segments with
    | none => Except.error "Segment not found in brief"
    | some seg => Except.ok (pyInt (seg.startTime * 1000), pyInt (seg.endTime * 1000))

/-- Python `int(str)` restricted to the canonical decimal strings the
creator emits (optional leading minus and digits; surrounding whitespace
and an explicit plus sign are not modelled). -/
def pyStrInt (cs : List Char) : Except String ℤ :=
  let digitsVal : List Char → Option ℕ := fun ds =>
    ds.foldl (fun acc c =>
              match acc with
              | none => none
              | some n => if c.isDigit then some (n * 10 + (c.toNat - 48)) else none)
      (if ds.isEmpty then none else some 0)
  match cs with
  | '-' :: rest =>
    match digitsVal rest with
    | some n => Except.ok (-(n : ℤ))
    | none => Except.error "ValueError: invalid literal for int"
  | _ =>
    match digitsVal cs with
    | some n => Except.ok (n : ℤ)
    | none => Except.error "ValueError: invalid literal for int"

/-- Parsing of `item["time_ms"]` at engine.py line 65:
`[int(t) for t in item["time_ms"].split("-")]` unpacked into two values
(any other number of parts is a `ValueError`). -/
def parseTimeMs (s : String) : Except String (ℤ × ℤ) :=
  match splitCharList '-' s.data with
  | [a, b] => do
    let x ← pyStrInt a
    let y ← pyStrInt b
    Except.ok (x, y)
  | _ => Except.error "ValueError: time_ms must be start-end"

/-- Duration of the pydub slice `seg[s:e]` of a clip of `len` milliseconds:
Python slice clamping, with negative indices counted from the end. -/
def pySliceLen (len : ℕ) (s e : ℤ) : ℕ :=
  let s2 := if s < 0 then max 0 ((len : ℤ) + s) else min s (len : ℤ)
  let e2 := if e < 0 then max 0 ((len : ℤ) + e) else min e (len : ℤ)
  (e2 - s2).toNat

/-- pydub's `AudioSegment.append(seg, crossfade)` at the duration level:
a zero crossfade concatenates; otherwise a crossfade longer than either
operand raises `ValueError`, and the joined duration loses `cf`
milliseconds to the overlap. -/
def appendCF (a b cf : ℕ) : Except String ℕ :=
  if cf = 0 then Except.ok (a + b)
  else if cf > a then Except.error "Crossfade is longer than the original AudioSegment"
  else if cf > b then Except.error "Crossfade is longer than the appended AudioSegment"
  else Except.ok (a + b - cf)

/-- The layer loop of `execute_recipe` (engine.py lines 68–79) at the
duration level.  `overlay` never extends the mixed buffer, so the mix keeps
the slot duration `dur`; the loop can still fail in `_get_stem`,
`_get_segment_milliseconds`, or with the `ZeroDivisionError` of
`_time_stretch_segment` when the slot duration is zero.  The stretched
clip's duration is the target duration (engine.py line 52, spec §4.3 step
3: the clip is stretched to match the slot exactly). -/
def layersLoop (env : RenderEnv) (eng : Engine) (dur : ℕ) :
    List (String × Option LayerSpec) → Except String ℕ
  | [] => Except.ok dur
  | (_, none) :: rest => layersLoop env eng dur rest
  | (role, some det) :: rest => do
    let p ← getStem env eng det.source role
    let se ← getSegMs eng det.source det.segment
    let clipLen := pySliceLen (env.durMs p) se.1 se.2
    let _ ← if clipLen > 0 ∧ ((clipLen : ℤ) - (dur : ℤ)).natAbs > 10 then
        (if dur = 0 then Except.error "ZeroDivisionError"
         else Except.ok dur)
      else Except.ok clipLen
    layersLoop env eng dur rest

/-- The timeline loop of `execute_recipe` (engine.py lines 64–80): parse
the slot range, build the silent mix of the slot duration (pydub's
`silent` maps a negative duration to an empty segment), process the layers
and append with the fixed 100 ms crossfade. -/
def itemsLoop (env : RenderEnv) (eng : Engine) :
    List TimelineItem → ℕ → Except String ℕ
  | [], acc => Except.ok acc
  | item :: rest, acc => do
    let se ← parseTimeMs item.timeMs
    let dur := (se.2 - se.1).toNat
    let mix ← layersLoop env eng dur item.layers
    let acc2 ← appendCF acc mix 100
    itemsLoop env eng rest acc2

/-- The output file name of engine.py lines 82–84. -/
def outputName (r : Recipe) : String :=
  ((r.mashupTitle.replace " " "_").replace "vs" "") ++ "_v" ++ toString r.version ++ ".wav"

/-- `AudioEngine.execute_recipe` (engine.py lines 61–86): run the timeline
loop starting from the empty running output (`AudioSegment.empty()`, 0 ms),
normalize (duration preserving) and export.  The result is the output file
name; the export — the only write of the render — happens only on full
success, so an error anywhere leaves no partial output. -/
def executeRecipe (env : RenderEnv) (eng : Engine) : Except String String := do
  let _ ← itemsLoop env eng eng.recipe.timeline 0
  Except.ok (outputName eng.recipe)

/-- The outcome of one provider inside `RevisionEngine.revise`: `none`
when the client was never configured (no API key), `some (Except.error e)`
when the API call raised, and `some (Except.ok s)` when it returned the
raw response text `s`.  `α` is the type of parsed recipe documents. -/
structure RevEnv (α : Type) where
  openaiResult : Option (Except String String)
  anthropicResult : Option (Except String String)
  parseJson : String → Option α

/-- `RevisionEngine.__init__` (reviser.py lines 12–24): at least one API
key must be configured or the constructor raises. -/
def mkReviserOk {α : Type} (env : RevEnv α) : Except String Unit :=
  if env.openaiResult.isNone ∧ env.anthropicResult.isNone then
    Except.error "At least one of OPENAI_API_KEY or ANTHROPIC_API_KEY must be set."
  else Except.ok ()

/-- One provider attempt: succeed only when the client exists, the call
returned, and the response parsed as JSON; every raised exception inside
the `try` block is caught and surrenders to the next provider. -/
def providerAttempt {α : Type} (res : Option (Except String String))
    (parse : String → Option α) : Option α :=
  match res with
  | some (Except.ok s) => parse s
  | _ => none

/-- `RevisionEngine.revise` (reviser.py lines 49–88): try OpenAI, then
Anthropic, and fall back to the original recipe when both fail; the
function never propagates a provider failure. -/
def revise {α : Type} (recipe : α) (env : RevEnv α) : α :=
  match providerAttempt env.openaiResult env.parseJson with
  | some r => r
  | none =>
    match providerAttempt env.anthropicResult env.parseJson with
    | some r => r
    | none => recipe

/-- A two-beat feature set: chroma `[[1,1]]`, silent rhythm and spectral. -/
def feats2 : FeatSet := ⟨[[1, 1]], [[0, 0]], [[0, 0]]⟩

/-- Sample primary brief (tempo 120, one 2-beat segment over 0–1 s). -/
def briefW1 : Brief :=
  ⟨⟨"P", "workspace/audio_sources/P.mp3"⟩, ⟨120, "C", [("p1", ⟨0, 1, 0, 2⟩)], feats2⟩⟩

/-- Sample secondary brief (tempo 100, one 2-beat segment over 0–1 s). -/
def briefW2 : Brief :=
  ⟨⟨"S", "workspace/audio_sources/S.mp3"⟩, ⟨100, "D", [("s1", ⟨0, 1, 0, 2⟩)], feats2⟩⟩

/-- A brief titled `X` with tempo 200 and no segments. -/
def briefX1 : Brief := ⟨⟨"X", "workspace/audio_sources/x.mp3"⟩, ⟨200, "C", [], ⟨[], [], []⟩⟩⟩

/-- A second brief also titled `X`, with tempo 100. -/
def briefX2 : Brief := ⟨⟨"X", "workspace/audio_sources/x.mp3"⟩, ⟨100, "G", [], ⟨[], [], []⟩⟩⟩

/-- A revision environment where the first provider's call raises and the
second was never configured. -/
def revEnvW : RevEnv ℕ := ⟨some (Except.error "service unavailable"), none, fun _ => none⟩

/-- A brief whose stem and source files are both absent from the render
environment `envGone`. -/
def briefGone : Brief :=
  ⟨⟨"A", "workspace/audio_sources/gone.mp3"⟩, ⟨120, "C", [("seg", ⟨0, 1, 0, 2⟩)], feats2⟩⟩

/-- A render environment with no files at all. -/
def envGone : RenderEnv := ⟨fun _ => false, fun _ => 0⟩

/-- An engine whose single timeline item references `briefGone`. -/
def engGone : Engine :=
  ⟨⟨2, "A vs A", "c", 120, "C",
    [⟨"0-1000", "d", [("vocals", some ⟨"A", "seg"⟩)]⟩], [briefGone]⟩,
   [("A", briefGone)]⟩

/-- The single brief of the C1 failing recipe; its separated stem exists in
`envC1` below. -/
def briefA : Brief :=
  ⟨⟨"songA", "workspace/audio_sources/songA.mp3"⟩,
   ⟨120, "C", [("segment_1", ⟨0, 1, 0, 4⟩)], ⟨[[1]], [[1]], [[1]]⟩⟩⟩

/-- The single item of the C1 failing recipe: a 1000 ms slot whose single
layer resolves to an existing stem and needs no time-stretching. -/
def itemC1 : TimelineItem :=
  ⟨"0-1000", "Pairing segment_1 with segment_1",
   [("instrumental", some ⟨"songA", "segment_1"⟩)]⟩

/-- A perfectly ordinary one-item recipe. -/
def recipeC1 : Recipe :=
  ⟨2, "songA vs songA", "c", 120, "C", [itemC1], [briefA]⟩

/-- Environment for C1: the stem file exists and is 60 s long. -/
def envC1 : RenderEnv :=
  ⟨fun p => p == "workspace/stems/htdemucs/songA/no_vocals.wav", fun _ => 60000⟩

/-- The engine state `AudioEngine.__init__` builds for `recipeC1`. -/
def engC1 : Engine := ⟨recipeC1, [("songA", briefA)]⟩

/-- Primary brief of the C2 failing input: one 4-beat segment. -/
def briefP4 : Brief :=
  ⟨⟨"P", "workspace/audio_sources/P.mp3"⟩,
   ⟨120, "C", [("p1", ⟨0, 1, 0, 4⟩)], ⟨[[1, 1, 1, 1]], [[1, 1, 1, 1]], [[0, 0, 0, 0]]⟩⟩⟩

/-- Secondary brief of the C2 failing input: one 3-beat segment, which
passes the 8-beat duration gate against the 4-beat primary segment. -/
def briefS3 : Brief :=
  ⟨⟨"S", "workspace/audio_sources/S.mp3"⟩,
   ⟨100, "D", [("s1", ⟨0, 1, 0, 3⟩)], ⟨[[1, 1, 1]], [[1, 1, 1]], [[0, 0, 0]]⟩⟩⟩

/-- The segment shared by the two witness briefs. -/
def segW : SegInfo := ⟨0, 1, 0, 2⟩

/-- The creator state for the witness briefs. -/
def cW : Creator := ⟨[("P", briefW1), ("S", briefW2)], "P", "S"⟩

/-- The sliced primary features of the witness pairing. -/
def pFW : FeatSet := sliceFeats briefW1.analysisResults.features 0 2

/-- The sliced secondary features of the witness pairing. -/
def sFW : FeatSet := sliceFeats briefW2.analysisResults.features 0 2

/-- The one timeline item the witness pairing emits. -/
def itemW : TimelineItem := mkItem "P" "S" "p1" "s1" segW

/-- The recipe the witness pairing creates. -/
def rW : Recipe :=
  ⟨2, "P vs S",
   "A robustly generated mashup based on harmonic, rhythmic, and spectral compatibility.",
   120, "C", [itemW], [briefW1, briefW2]⟩

/-- A brief titled `E1` with tempo 110. -/
def briefE1 : Brief := ⟨⟨"E1", "workspace/audio_sources/e1.mp3"⟩, ⟨110, "C", [], ⟨[], [], []⟩⟩⟩

/-- A brief titled `E2` with the same tempo 110. -/
def briefE2 : Brief := ⟨⟨"E2", "workspace/audio_sources/e2.mp3"⟩, ⟨110, "D", [], ⟨[], [], []⟩⟩⟩

/-- The creator the equal-tempo briefs produce: both roles are `E1`. -/
def cE : Creator := ⟨[("E1", briefE1), ("E2", briefE2)], "E1", "E1"⟩

/-- A chroma slice with a tiny but non-zero norm. -/
def chromaTiny : Mat := [[1 / 100000]]

/-! ## Theorems -/

/-- `Except.bind` on a success reduces to the continuation. -/
theorem exceptBind_ok {e a b : Type} (x : a) (f : a → Except e b) :
    ((Except.ok x : Except e a) >>= f) = f x := rfl

/-- `Except.bind` propagates an error past the continuation — the model of
an uncaught Python exception aborting the rest of the computation. -/
theorem exceptBind_err {e a b : Type} (m : e) (f : a → Except e b) :
    ((Except.error m : Except e a) >>= f) = Except.error m := rfl

/-- C7: `MashupCreator.__init__` succeeds exactly on lists of at least two
creative briefs, and raises the two-brief `ValueError` otherwise. -/
theorem c7_min_briefs (bs : List Brief) :
    ((∃ c, mkCreator bs = Except.ok c) ↔ 2 ≤ bs.length) ∧
    (bs.length < 2 →
      mkCreator bs = Except.error "MashupCreator requires at least two creative briefs.") := by
  refine ⟨⟨?_, ?_⟩, ?_⟩
  · rintro ⟨c, hc⟩
    by_contra h
    rw [mkCreator, if_pos (by omega)] at hc
    cases hc
  · intro h
    rw [mkCreator, if_neg (by omega)]
    exact ⟨_, rfl⟩
  · intro h
    rw [mkCreator, if_pos h]

/-- C7 witness: the empty list is rejected and a concrete two-brief list is
accepted. -/
theorem c7_min_briefs_witness :
    mkCreator [] = Except.error "MashupCreator requires at least two creative briefs." ∧
    ∃ c, mkCreator [briefW1, briefW2] = Except.ok c :=
  ⟨(c7_min_briefs []).2 (by decide), (c7_min_briefs [briefW1, briefW2]).1.2 (by decide)⟩

/-- C8: whenever every provider call of `RevisionEngine.revise` fails or
returns output that does not parse as JSON (including providers that were
never configured), `revise` returns the original recipe unchanged instead
of propagating the failure. -/
theorem c8_revise_fallback {α : Type} (recipe : α) (env : RevEnv α)
    (h1 : ∀ s, env.openaiResult = some (Except.ok s) → env.parseJson s = none)
    (h2 : ∀ s, env.anthropicResult = some (Except.ok s) → env.parseJson s = none) :
    revise recipe env = recipe := by
  rw [revise]
  have ho : providerAttempt env.openaiResult env.parseJson = none := by
    rcases hc : env.openaiResult with _ | r
    · simp [providerAttempt]
    · rcases r with e | s
      · simp [providerAttempt]
      · simpa [providerAttempt] using h1 s hc
  have ha : providerAttempt env.anthropicResult env.parseJson = none := by
    rcases hc : env.anthropicResult with _ | r
    · simp [providerAttempt]
    · rcases r with e | s
      · simp [providerAttempt]
      · simpa [providerAttempt] using h2 s hc
  rw [ho, ha]

/-- C8 witness: with a failing provider and an unconfigured one, revision
of the document `7` is a no-op. -/
theorem c8_revise_fallback_witness : revise 7 revEnvW = 7 :=
  c8_revise_fallback 7 revEnvW
    (by intro s hs; simp [revEnvW] at hs)
    (by intro s hs; simp [revEnvW] at hs)

/-- C10: both the creator (creator.py line 14) and the engine (engine.py
line 19) index briefs by title with the same dict comprehension, so of two
same-titled briefs the later one silently replaces the earlier one; two
same-titled briefs still satisfy the two-brief precondition and no error is
raised for the collapse. -/
theorem c10_title_collapse (b1 b2 : Brief) (h : b1.songInfo.title = b2.songInfo.title) :
    mkBriefMap [b1, b2] = [(b1.songInfo.title, b2)] ∧
    mkCreator [b1, b2] =
      Except.ok ⟨[(b1.songInfo.title, b2)], b1.songInfo.title, b1.songInfo.title⟩ ∧
    (∀ r : Recipe, r.briefs = [b1, b2] →
      mkEngine r = Except.ok ⟨r, [(b1.songInfo.title, b2)]⟩) := by
  have hm : mkBriefMap [b1, b2] = [(b1.songInfo.title, b2)] := by
    simp [mkBriefMap, insManyB, dictInsert, h]
  refine ⟨hm, ?_, ?_⟩
  · rw [mkCreator, if_neg (by simp)]
    rw [hm]
    simp [argmaxFirst, argminFirst, argmaxGo, argminGo]
  · intro r hr
    rw [mkEngine, hr, hm]
    rfl

/-- C10 witness: two concrete same-titled briefs (tempos 200 and 100)
collapse to the later brief under the title, both roles resolve to that
title, and the engine accepts a recipe embedding them. -/
theorem c10_title_collapse_witness :
    mkCreator [briefX1, briefX2] = Except.ok ⟨[("X", briefX2)], "X", "X"⟩ :=
  (c10_title_collapse briefX1 briefX2 rfl).2.1

/-- C5: `_get_stem` resolution is a trichotomy — the role-specific stem
file when it exists, else the full mixed source audio when that exists
(degraded but non-fatal), else a fatal error (also when the title has no
embedded brief); and a fatal stem error on the first layer aborts the whole
render, whose only output write happens after full success. -/
theorem c5_stem_resolution (env : RenderEnv) (eng : Engine) (songTitle stemType : String) :
    (findMap songTitle eng.briefs = none →
      getStem env eng songTitle stemType =
        Except.error "Brief for song not found in recipe.") ∧
    (∀ b, findMap songTitle eng.briefs = some b →
      (env.fsExists (stemPathOf b (stemFileFor stemType)) = true →
        getStem env eng songTitle stemType =
          Except.ok (stemPathOf b (stemFileFor stemType))) ∧
      (env.fsExists (stemPathOf b (stemFileFor stemType)) = false →
        env.fsExists b.songInfo.sourceFile = true →
        getStem env eng songTitle stemType = Except.ok b.songInfo.sourceFile) ∧
      (env.fsExists (stemPathOf b (stemFileFor stemType)) = false →
        env.fsExists b.songInfo.sourceFile = false →
        getStem env eng songTitle stemType =
          Except.error "Fatal: Neither stem nor source audio file found")) ∧
    (∀ a b item rest role det emsg,
      eng.recipe.timeline = item :: rest →
      parseTimeMs item.timeMs = Except.ok (a, b) →
      item.layers.head? = some (role, some det) →
      getStem env eng det.source role = Except.error emsg →
      executeRecipe env eng = Except.error emsg) := by
  refine ⟨?_, ?_, ?_⟩
  · intro hn
    rw [getStem, hn]
  · intro b hb
    refine ⟨?_, ?_, ?_⟩
    · intro hs
      rw [getStem, hb]
      simp only [hs, if_true]
    · intro hs hsrc
      rw [getStem, hb]
      simp only [hs, hsrc, Bool.false_eq_true, if_false, if_true]
    · intro hs hsrc
      rw [getStem, hb]
      simp only [hs, hsrc, Bool.false_eq_true, if_false]
  · intro a b item rest role det emsg htl hparse hhead hstem
    rcases hl : item.layers with _ | ⟨p, tl⟩
    · rw [hl] at hhead; cases hhead
    · rw [hl] at hhead
      have hp : p = (role, some det) := by
        simpa using hhead
      subst hp
      rw [executeRecipe, htl]
      simp only [itemsLoop, hparse, exceptBind_ok, hl, layersLoop, hstem, exceptBind_err]

/-- C5 witness: with both files missing, `_get_stem` raises the fatal
error, and the render of a recipe whose first layer needs that stem aborts
with the same error. -/
theorem c5_stem_resolution_witness :
    getStem envGone engGone "A" "vocals" =
      Except.error "Fatal: Neither stem nor source audio file found" ∧
    executeRecipe envGone engGone =
      Except.error "Fatal: Neither stem nor source audio file found" := by
  have h := c5_stem_resolution envGone engGone "A" "vocals"
  have hstem := (h.2.1 briefGone rfl).2.2 rfl rfl
  exact ⟨hstem, h.2.2 0 1000 _ [] "vocals" ⟨"A", "seg"⟩ _ rfl rfl rfl hstem⟩

/-- C1: `execute_recipe` starts its running output from
`AudioSegment.empty()` (0 ms) yet appends the very first item with the
fixed `crossfade=100`; pydub's `append` raises `ValueError` whenever the
crossfade exceeds the original segment, so the crossfade-too-long error
branch fires on the first item of every non-empty timeline — here on a
fully valid one-item recipe — and rendering fails instead of appending the
first item successfully. -/
theorem c1_first_append_crossfade_error :
    (mkEngine recipeC1).bind (fun e => executeRecipe envC1 e) =
      Except.error "Crossfade is longer than the original AudioSegment" := by
  have hseg : getSegMs engC1 "songA" "segment_1" = Except.ok (0, 1000) := by
    show Except.ok (pyInt ((0 : ℚ) * 1000), pyInt ((1 : ℚ) * 1000)) = _
    norm_num [pyInt]
  have hstem : getStem envC1 engC1 "songA" "instrumental" =
      Except.ok "workspace/stems/htdemucs/songA/no_vocals.wav" := rfl
  show executeRecipe envC1 engC1 = _
  rw [executeRecipe]
  have htl : engC1.recipe.timeline = [itemC1] := rfl
  rw [htl]
  simp only [itemsLoop]
  have hp : parseTimeMs itemC1.timeMs = Except.ok ((0 : ℤ), (1000 : ℤ)) := rfl
  rw [hp, exceptBind_ok]
  have hl : itemC1.layers = [("instrumental", some ⟨"songA", "segment_1"⟩)] := rfl
  rw [hl]
  simp only [layersLoop]
  rw [hstem, exceptBind_ok, hseg, exceptBind_ok]
  rfl

/-- C2: a secondary segment that passes the duration gate with a *different*
beat length than the primary segment (4 vs 3 beats, both slices non-empty)
does not produce a timeline item: `create_mashup_recipe` resizes only the
chroma slice (creator.py line 78), so `_calculate_mashability` flattens
rhythm slices of unequal length and `np.dot` raises `ValueError`, aborting
recipe creation instead of emitting the item. -/
theorem c2_unequal_widths_scoring_error :
    (mkCreator [briefP4, briefS3]).bind createRecipe =
      Except.error "ValueError: shapes not aligned" := by
  rfl

/-- If no later value strictly beats the current best, Python `max` keeps
the current key. -/
theorem argmaxGo_keep (l : List (String × ℚ)) :
    ∀ (k : String) (v : ℚ), (∀ p ∈ l, ¬ v < p.2) → argmaxGo k v l = k := by
  induction l with
  | nil => intro k v _; rfl
  | cons hd tl ih =>
    intro k v h
    rcases hd with ⟨k2, v2⟩
    rw [argmaxGo, if_neg (h (k2, v2) (List.mem_cons_self _ _))]
    exact ih k v (fun p hp => h p (List.mem_cons_of_mem _ hp))

/-- If some pair `(km, vm)` strictly beats the current best, dominates the
whole list, and is the unique key with value `vm`, Python `max` lands on
`km`. -/
theorem argmaxGo_first (l : List (String × ℚ)) :
    ∀ (k : String) (v : ℚ) (km : String) (vm : ℚ),
      (km, vm) ∈ l → v < vm → (∀ p ∈ l, p.2 ≤ vm) → (∀ p ∈ l, p.2 = vm → p.1 = km) →
      argmaxGo k v l = km := by
  induction l with
  | nil => intro k v km vm h1 _ _ _; cases h1
  | cons hd tl ih =>
    intro k v km vm h1 h2 h3 h4
    rcases hd with ⟨k2, v2⟩
    by_cases hv : v < v2
    · rw [argmaxGo, if_pos hv]
      by_cases hvm : v2 = vm
      · have hk2 : k2 = km := h4 (k2, v2) (List.mem_cons_self _ _) hvm
        subst hk2; subst hvm
        exact argmaxGo_keep tl k2 v2
          (fun p hp => not_lt.mpr (h3 p (List.mem_cons_of_mem _ hp)))
      · have hmem : (km, vm) ∈ tl := by
          rcases List.mem_cons.mp h1 with heq | hmem
          · exact absurd (congrArg Prod.snd heq).symm hvm
          · exact hmem
        exact ih k2 v2 km vm hmem
          (lt_of_le_of_ne (h3 (k2, v2) (List.mem_cons_self _ _)) hvm)
          (fun p hp => h3 p (List.mem_cons_of_mem _ hp))
          (fun p hp => h4 p (List.mem_cons_of_mem _ hp))
    · rw [argmaxGo, if_neg hv]
      have hmem : (km, vm) ∈ tl := by
        rcases List.mem_cons.mp h1 with heq | hmem
        · have hv2 : v2 = vm := (congrArg Prod.snd heq).symm
          exact absurd (lt_of_lt_of_eq h2 hv2.symm) hv
        · exact hmem
      exact ih k v km vm hmem h2
        (fun p hp => h3 p (List.mem_cons_of_mem _ hp))
        (fun p hp => h4 p (List.mem_cons_of_mem _ hp))

/-- `max(d, key=d.get)` returns the key of the unique maximal value. -/
theorem argmaxFirst_spec (l : List (String × ℚ)) (km : String) (vm : ℚ)
    (h1 : (km, vm) ∈ l) (h2 : ∀ p ∈ l, p.2 ≤ vm)
    (h3 : ∀ p ∈ l, p.2 = vm → p.1 = km) :
    argmaxFirst l = km := by
  rcases l with _ | ⟨⟨k0, v0⟩, tl⟩
  · cases h1
  · rw [argmaxFirst]
    by_cases hv : v0 = vm
    · have hk0 : k0 = km := h3 (k0, v0) (List.mem_cons_self _ _) hv
      rw [← hk0]
      exact argmaxGo_keep tl k0 v0
        (fun p hp => not_lt.mpr (le_of_le_of_eq (h2 p (List.mem_cons_of_mem _ hp)) hv.symm))
    · have hmem : (km, vm) ∈ tl := by
        rcases List.mem_cons.mp h1 with heq | hmem
        · exact absurd (congrArg Prod.snd heq).symm hv
        · exact hmem
      exact argmaxGo_first tl k0 v0 km vm hmem
        (lt_of_le_of_ne (h2 (k0, v0) (List.mem_cons_self _ _)) hv)
        (fun p hp => h2 p (List.mem_cons_of_mem _ hp))
        (fun p hp => h3 p (List.mem_cons_of_mem _ hp))

/-- If no later value strictly undercuts the current best, Python `min`
keeps the current key. -/
theorem argminGo_keep (l : List (String × ℚ)) :
    ∀ (k : String) (v : ℚ), (∀ p ∈ l, ¬ p.2 < v) → argminGo k v l = k := by
  induction l with
  | nil => intro k v _; rfl
  | cons hd tl ih =>
    intro k v h
    rcases hd with ⟨k2, v2⟩
    rw [argminGo, if_neg (h (k2, v2) (List.mem_cons_self _ _))]
    exact ih k v (fun p hp => h p (List.mem_cons_of_mem _ hp))

/-- Dual of `argmaxGo_first` for Python `min`. -/
theorem argminGo_first (l : List (String × ℚ)) :
    ∀ (k : String) (v : ℚ) (km : String) (vm : ℚ),
      (km, vm) ∈ l → vm < v → (∀ p ∈ l, vm ≤ p.2) → (∀ p ∈ l, p.2 = vm → p.1 = km) →
      argminGo k v l = km := by
  induction l with
  | nil => intro k v km vm h1 _ _ _; cases h1
  | cons hd tl ih =>
    intro k v km vm h1 h2 h3 h4
    rcases hd with ⟨k2, v2⟩
    by_cases hv : v2 < v
    · rw [argminGo, if_pos hv]
      by_cases hvm : v2 = vm
      · have hk2 : k2 = km := h4 (k2, v2) (List.mem_cons_self _ _) hvm
        subst hk2; subst hvm
        exact argminGo_keep tl k2 v2
          (fun p hp => not_lt.mpr (h3 p (List.mem_cons_of_mem _ hp)))
      · have hmem : (km, vm) ∈ tl := by
          rcases List.mem_cons.mp h1 with heq | hmem
          · exact absurd (congrArg Prod.snd heq).symm hvm
          · exact hmem
        exact ih k2 v2 km vm hmem
          (lt_of_le_of_ne (h3 (k2, v2) (List.mem_cons_self _ _)) (Ne.symm hvm))
          (fun p hp => h3 p (List.mem_cons_of_mem _ hp))
          (fun p hp => h4 p (List.mem_cons_of_mem _ hp))
    · rw [argminGo, if_neg hv]
      have hmem : (km, vm) ∈ tl := by
        rcases List.mem_cons.mp h1 with heq | hmem
        · have hv2 : v2 = vm := (congrArg Prod.snd heq).symm
          exact absurd (lt_of_eq_of_lt hv2 h2) hv
        · exact hmem
      exact ih k v km vm hmem h2
        (fun p hp => h3 p (List.mem_cons_of_mem _ hp))
        (fun p hp => h4 p (List.mem_cons_of_mem _ hp))

/-- `min(d, key=d.get)` returns the key of the unique minimal value. -/
theorem argminFirst_spec (l : List (String × ℚ)) (km : String) (vm : ℚ)
    (h1 : (km, vm) ∈ l) (h2 : ∀ p ∈ l, vm ≤ p.2)
    (h3 : ∀ p ∈ l, p.2 = vm → p.1 = km) :
    argminFirst l = km := by
  rcases l with _ | ⟨⟨k0, v0⟩, tl⟩
  · cases h1
  · rw [argminFirst]
    by_cases hv : v0 = vm
    · have hk0 : k0 = km := h3 (k0, v0) (List.mem_cons_self _ _) hv
      rw [← hk0]
      exact argminGo_keep tl k0 v0
        (fun p hp => not_lt.mpr (le_of_eq_of_le hv (h2 p (List.mem_cons_of_mem _ hp))))
    · have hmem : (km, vm) ∈ tl := by
        rcases List.mem_cons.mp h1 with heq | hmem
        · exact absurd (congrArg Prod.snd heq).symm hv
        · exact hmem
      exact argminGo_first tl k0 v0 km vm hmem
        (lt_of_le_of_ne (h2 (k0, v0) (List.mem_cons_self _ _)) (Ne.symm hv))
        (fun p hp => h2 p (List.mem_cons_of_mem _ hp))
        (fun p hp => h3 p (List.mem_cons_of_mem _ hp))

/-- Membership after a dict insertion: the value is the inserted one or was
already present. -/
theorem dictInsert_mem {α : Type} (k : String) (v : α) (m : List (String × α)) :
    ∀ t b, (t, b) ∈ dictInsert k v m → b = v ∨ (t, b) ∈ m := by
  induction m with
  | nil =>
    intro t b h
    rw [dictInsert] at h
    rcases List.mem_cons.mp h with heq | hmem
    · exact Or.inl (congrArg Prod.snd heq)
    · cases hmem
  | cons hd tl ih =>
    intro t b h
    rcases hd with ⟨k2, v2⟩
    rw [dictInsert] at h
    by_cases hk : k2 = k
    · rw [if_pos hk] at h
      rcases List.mem_cons.mp h with heq | hmem
      · exact Or.inl (congrArg Prod.snd heq)
      · exact Or.inr (List.mem_cons_of_mem _ hmem)
    · rw [if_neg hk] at h
      rcases List.mem_cons.mp h with heq | hmem
      · exact Or.inr (heq ▸ List.mem_cons_self _ _)
      · rcases ih t b hmem with hv | hold
        · exact Or.inl hv
        · exact Or.inr (List.mem_cons_of_mem _ hold)

/-- Values of the folded brief dict come from the accumulator or the brief
list. -/
theorem insManyB_mem (bs : List Brief) :
    ∀ (m : List (String × Brief)) (t : String) (b : Brief),
      (t, b) ∈ insManyB m bs → (t, b) ∈ m ∨ b ∈ bs := by
  induction bs with
  | nil => intro m t b h; exact Or.inl h
  | cons hd tl ih =>
    intro m t b h
    rw [insManyB] at h
    rcases ih _ t b h with hin | hbs
    · rcases dictInsert_mem _ _ _ t b hin with hv | hm
      · exact Or.inr (hv ▸ List.mem_cons_self _ _)
      · exact Or.inl hm
    · exact Or.inr (List.mem_cons_of_mem _ hbs)

/-- Every value of `mkBriefMap bs` is one of the briefs of `bs`. -/
theorem mkBriefMap_val_mem (bs : List Brief) (t : String) (b : Brief)
    (h : (t, b) ∈ mkBriefMap bs) : b ∈ bs := by
  rcases insManyB_mem bs [] t b h with hin | hbs
  · cases hin
  · exact hbs

/-- Inserting a fresh key appends it. -/
theorem dictInsert_not_mem {α : Type} (k : String) (v : α) (m : List (String × α))
    (h : k ∉ m.map Prod.fst) : dictInsert k v m = m ++ [(k, v)] := by
  induction m with
  | nil => rfl
  | cons hd tl ih =>
    rcases hd with ⟨k2, v2⟩
    rw [List.map_cons] at h
    rw [dictInsert, if_neg (fun hk => h (by rw [← hk]; exact List.mem_cons_self _ _)),
      ih (fun hk => h (List.mem_cons_of_mem _ hk))]
    rfl

/-- Folding briefs with pairwise-fresh, pairwise-distinct titles into a
dict appends them in order. -/
theorem insManyB_fresh (bs : List Brief) :
    ∀ (m : List (String × Brief)),
      (∀ b ∈ bs, b.songInfo.title ∉ m.map Prod.fst) →
      (bs.map (fun b => b.songInfo.title)).Nodup →
      insManyB m bs = m ++ bs.map (fun b => (b.songInfo.title, b)) := by
  induction bs with
  | nil => intro m _ _; simp [insManyB]
  | cons hd tl ih =>
    intro m hfresh hnd
    rw [insManyB, dictInsert_not_mem _ _ _ (hfresh hd (List.mem_cons_self _ _))]
    rw [List.map_cons, List.nodup_cons] at hnd
    rw [ih (m ++ [(hd.songInfo.title, hd)]) ?_ hnd.2]
    · simp
    · intro b hb
      rw [List.map_append]
      intro hmem
      rcases List.mem_append.mp hmem with hm | hsing
      · exact hfresh b (List.mem_cons_of_mem _ hb) hm
      · simp only [List.map_cons, List.map_nil, List.mem_singleton] at hsing
        exact hnd.1 (hsing ▸ List.mem_map_of_mem (fun b => b.songInfo.title) hb)

/-- With pairwise-distinct titles the brief dict is just the association
list of the briefs in order. -/
theorem mkBriefMap_nodup (bs : List Brief)
    (hnd : (bs.map (fun b => b.songInfo.title)).Nodup) :
    mkBriefMap bs = bs.map (fun b => (b.songInfo.title, b)) := by
  rw [mkBriefMap, insManyB_fresh bs [] (by intro b _ h; cases h) hnd]
  rfl

/-- Lookup of a present brief by title when titles are pairwise distinct. -/
theorem findMap_map_nodup (bs : List Brief) (b0 : Brief)
    (hnd : (bs.map (fun b => b.songInfo.title)).Nodup) (hmem : b0 ∈ bs) :
    findMap b0.songInfo.title (bs.map (fun b => (b.songInfo.title, b))) = some b0 := by
  induction bs with
  | nil => cases hmem
  | cons hd tl ih =>
    rw [List.map_cons, List.nodup_cons] at hnd
    rcases List.mem_cons.mp hmem with heq | htl
    · subst heq
      rw [List.map_cons, findMap, if_pos rfl]
    · rw [List.map_cons, findMap,
        if_neg (fun h => hnd.1
          (by rw [h]; exact List.mem_map_of_mem (fun b => b.songInfo.title) htl))]
      exact ih hnd.2 htl

/-- Fields of a successfully created recipe, given the two role lookups. -/
theorem createRecipe_ok_fields (c : Creator) (pb sb : Brief) (r : Recipe)
    (hp : findMap c.primaryTitle c.briefs = some pb)
    (hs : findMap c.secondaryTitle c.briefs = some sb)
    (hr : createRecipe c = Except.ok r) :
    r.version = 2 ∧ r.targetTempo = pb.analysisResults.tempo ∧
    r.targetKey = pb.analysisResults.estimatedKey ∧ r.briefs = [pb, sb] ∧
    r.mashupTitle = c.primaryTitle ++ " vs " ++ c.secondaryTitle := by
  rw [createRecipe.eq_def, hp, hs] at hr
  simp only [] at hr
  rcases htl : timelineLoop c.primaryTitle c.secondaryTitle pb sb
      pb.analysisResults.segments [] with e | tl
  · rw [htl, exceptBind_err] at hr
    cases hr
  · rw [htl, exceptBind_ok] at hr
    have hrec := Except.ok.inj hr
    rw [← hrec]
    exact ⟨rfl, rfl, rfl, rfl, rfl⟩

/-- C6 (amended with pairwise-distinct titles): when the briefs' titles are
pairwise distinct and a brief strictly dominates (resp. is strictly
dominated in) tempo, `_select_roles` makes its title primary (resp.
secondary), and a successfully created recipe copies `target_tempo` and
`target_key` from the primary brief and has `version = 2`. -/
theorem c6_roles_amended (bs : List Brief) (bMax bMin : Brief) (c : Creator)
    (hc : mkCreator bs = Except.ok c)
    (hnd : (bs.map (fun b => b.songInfo.title)).Nodup)
    (hMaxMem : bMax ∈ bs) (hMinMem : bMin ∈ bs)
    (hmax : ∀ b ∈ bs, b ≠ bMax → b.analysisResults.tempo < bMax.analysisResults.tempo)
    (hmin : ∀ b ∈ bs, b ≠ bMin → bMin.analysisResults.tempo < b.analysisResults.tempo) :
    c.primaryTitle = bMax.songInfo.title ∧
    c.secondaryTitle = bMin.songInfo.title ∧
    ∀ r, createRecipe c = Except.ok r →
      r.targetTempo = bMax.analysisResults.tempo ∧
      r.targetKey = bMax.analysisResults.estimatedKey ∧
      r.version = 2 := by
  have hlen : ¬ bs.length < 2 := by
    intro h
    rw [mkCreator, if_pos h] at hc
    cases hc
  rw [mkCreator, if_neg hlen] at hc
  have hceq := (Except.ok.inj hc).symm
  have hbriefs : c.briefs = bs.map (fun b => (b.songInfo.title, b)) := by
    rw [hceq, mkBriefMap_nodup bs hnd]
  have htempos : (mkBriefMap bs).map (fun p => (p.1, p.2.analysisResults.tempo)) =
      bs.map (fun b => (b.songInfo.title, b.analysisResults.tempo)) := by
    rw [mkBriefMap_nodup bs hnd, List.map_map]
    rfl
  have hprim : c.primaryTitle = bMax.songInfo.title := by
    rw [hceq]
    show argmaxFirst _ = _
    rw [htempos]
    refine argmaxFirst_spec _ _ bMax.analysisResults.tempo
      (List.mem_map.mpr ⟨bMax, hMaxMem, rfl⟩) ?_ ?_
    · rintro p hp
      obtain ⟨b, hb, rfl⟩ := List.mem_map.mp hp
      by_cases hbe : b = bMax
      · rw [hbe]
      · exact le_of_lt (hmax b hb hbe)
    · rintro p hp hval
      obtain ⟨b, hb, rfl⟩ := List.mem_map.mp hp
      by_cases hbe : b = bMax
      · rw [hbe]
      · exact absurd hval (ne_of_lt (hmax b hb hbe))
  have hsec : c.secondaryTitle = bMin.songInfo.title := by
    rw [hceq]
    show argminFirst _ = _
    rw [htempos]
    refine argminFirst_spec _ _ bMin.analysisResults.tempo
      (List.mem_map.mpr ⟨bMin, hMinMem, rfl⟩) ?_ ?_
    · rintro p hp
      obtain ⟨b, hb, rfl⟩ := List.mem_map.mp hp
      by_cases hbe : b = bMin
      · rw [hbe]
      · exact le_of_lt (hmin b hb hbe)
    · rintro p hp hval
      obtain ⟨b, hb, rfl⟩ := List.mem_map.mp hp
      by_cases hbe : b = bMin
      · rw [hbe]
      · exact absurd hval.symm (ne_of_lt (hmin b hb hbe))
  refine ⟨hprim, hsec, ?_⟩
  intro r hr
  have hp : findMap c.primaryTitle c.briefs = some bMax := by
    rw [hbriefs, hprim]
    exact findMap_map_nodup bs bMax hnd hMaxMem
  have hs : findMap c.secondaryTitle c.briefs = some bMin := by
    rw [hbriefs, hsec]
    exact findMap_map_nodup bs bMin hnd hMinMem
  obtain ⟨hv, ht, hk, _, _⟩ := createRecipe_ok_fields c bMax bMin r hp hs hr
  exact ⟨ht, hk, hv⟩

/-- C6 counterexample: two briefs with the same title and pairwise-distinct
tempos 200 and 100 satisfy the claim's hypotheses, yet the dict collapse
keeps only the later (tempo-100) brief, which becomes both roles, and the
created recipe's `target_tempo` is 100 — not the highest supplied tempo. -/
theorem c6_duplicate_title_cex :
    briefX1.analysisResults.tempo = 200 ∧ briefX2.analysisResults.tempo = 100 ∧
    ((mkCreator [briefX1, briefX2]).bind createRecipe).map Recipe.targetTempo =
      Except.ok (100 : ℚ) :=
  ⟨rfl, rfl, rfl⟩

/-- C6 witness: with distinct titles `P`, `S` and tempos 120 > 100, the
tempo-120 brief becomes primary, the tempo-100 brief secondary, and the
recipe (here with an empty timeline) carries the primary's tempo and key
and version 2. -/
theorem c6_roles_amended_witness :
    Creator.primaryTitle ⟨[("P", briefW1), ("S", briefW2)], "P", "S"⟩ = "P" ∧
    Creator.secondaryTitle ⟨[("P", briefW1), ("S", briefW2)], "P", "S"⟩ = "S" := by
  have h := c6_roles_amended [briefW1, briefW2] briefW1 briefW2
    ⟨[("P", briefW1), ("S", briefW2)], "P", "S"⟩ rfl
    (by simp [briefW1, briefW2])
    (List.mem_cons_self _ _) (List.mem_cons_of_mem _ (List.mem_cons_self _ _))
    ?_ ?_
  · exact ⟨h.1, h.2.1⟩
  · intro b hb hne
    rcases List.mem_cons.mp hb with rfl | hb2
    · exact absurd rfl hne
    · rcases List.mem_cons.mp hb2 with rfl | hb3
      · norm_num [briefW1, briefW2]
      · cases hb3
  · intro b hb hne
    rcases List.mem_cons.mp hb with rfl | hb2
    · norm_num [briefW1, briefW2]
    · rcases List.mem_cons.mp hb2 with rfl | hb3
      · exact absurd rfl hne
      · cases hb3

/-- In an association list with no duplicate keys, a key determines its
value. -/
theorem nodupKeys_eq {α : Type} (l : List (String × α))
    (hnd : (l.map Prod.fst).Nodup) (k : String) (a b : α)
    (ha : (k, a) ∈ l) (hb : (k, b) ∈ l) : a = b := by
  induction l with
  | nil => cases ha
  | cons hd tl ih =>
    rw [List.map_cons, List.nodup_cons] at hnd
    rcases List.mem_cons.mp ha with hah | hat
    · rcases List.mem_cons.mp hb with hbh | hbt
      · rw [← hah] at hbh
        exact (congrArg Prod.snd hbh).symm
      · exfalso
        apply hnd.1
        rw [show hd.1 = k from congrArg Prod.fst hah.symm]
        exact List.mem_map_of_mem Prod.fst hbt
    · rcases List.mem_cons.mp hb with hbh | hbt
      · exfalso
        apply hnd.1
        rw [show hd.1 = k from congrArg Prod.fst hbh.symm]
        exact List.mem_map_of_mem Prod.fst hat
      · exact ih hnd.2 hat hbt

/-- The candidate loop only ever installs a segment name that passed the
8-beat duration gate: on success the best-match name is the initial one or
belongs to a gate-passing candidate. -/
theorem scoreLoop_name_spec (sb : Brief) (pStart pEnd : ℕ) (pF : FeatSet) :
    ∀ (cands : List (String × SegInfo)) (acc res : Option String × ℝ),
      scoreLoop sb pStart pEnd pF cands acc = Except.ok res →
      res.1 = acc.1 ∨ ∃ nm sSeg, (nm, sSeg) ∈ cands ∧ res.1 = some nm ∧
        (((pEnd : ℤ) - (pStart : ℤ)) -
          ((sSeg.endBeat : ℤ) - (sSeg.startBeat : ℤ))).natAbs ≤ 8 := by
  intro cands
  induction cands with
  | nil =>
    intro acc res h
    rw [scoreLoop] at h
    rw [Except.ok.inj h]
    exact Or.inl rfl
  | cons hd rest ih =>
    intro acc res h
    obtain ⟨sName, sSeg⟩ := hd
    rw [scoreLoop] at h
    by_cases hg : (((pEnd : ℤ) - (pStart : ℤ)) -
        ((sSeg.endBeat : ℤ) - (sSeg.startBeat : ℤ))).natAbs > 8
    · rw [if_pos hg] at h
      rcases ih acc res h with hsame | ⟨nm, s2, hmem, hres, hgate⟩
      · exact Or.inl hsame
      · exact Or.inr ⟨nm, s2, List.mem_cons_of_mem _ hmem, hres, hgate⟩
    · rw [if_neg hg] at h
      simp only [] at h
      by_cases hw : colsOf pF.chroma = 0 ∨
          colsOf (sliceFeats sb.analysisResults.features sSeg.startBeat sSeg.endBeat).chroma = 0
      · rw [if_pos hw] at h
        rcases ih acc res h with hsame | ⟨nm, s2, hmem, hres, hgate⟩
        · exact Or.inl hsame
        · exact Or.inr ⟨nm, s2, List.mem_cons_of_mem _ hmem, hres, hgate⟩
      · rw [if_neg hw] at h
        rcases hm : mashability pF _ with e | sc
        · rw [hm, exceptBind_err] at h
          cases h
        · rw [hm, exceptBind_ok] at h
          by_cases hcmp : acc.2 < sc
          · rw [if_pos hcmp] at h
            rcases ih (some sName, sc) res h with hsame | ⟨nm, s2, hmem, hres, hgate⟩
            · exact Or.inr ⟨sName, sSeg, List.mem_cons_self _ _, hsame, by omega⟩
            · exact Or.inr ⟨nm, s2, List.mem_cons_of_mem _ hmem, hres, hgate⟩
          · rw [if_neg hcmp] at h
            rcases ih acc res h with hsame | ⟨nm, s2, hmem, hres, hgate⟩
            · exact Or.inl hsame
            · exact Or.inr ⟨nm, s2, List.mem_cons_of_mem _ hmem, hres, hgate⟩

/-- Every item a successful timeline loop adds beyond its accumulator is a
`mkItem` for a primary segment and a gate-passing secondary segment. -/
theorem timelineLoop_mem (pt st : String) (pb sb : Brief) :
    ∀ (segs : List (String × SegInfo)) (acc tl : List TimelineItem),
      timelineLoop pt st pb sb segs acc = Except.ok tl →
      ∀ item ∈ tl, item ∈ acc ∨ ∃ pName pSeg nm sSeg,
        (pName, pSeg) ∈ segs ∧ (nm, sSeg) ∈ sb.analysisResults.segments ∧
        item = mkItem pt st pName nm pSeg ∧
        (((pSeg.endBeat : ℤ) - (pSeg.startBeat : ℤ)) -
          ((sSeg.endBeat : ℤ) - (sSeg.startBeat : ℤ))).natAbs ≤ 8 := by
  intro segs
  induction segs with
  | nil =>
    intro acc tl h item him
    rw [timelineLoop] at h
    rw [← Except.ok.inj h] at him
    exact Or.inl him
  | cons hd rest ih =>
    intro acc tl h item him
    obtain ⟨segName, pSeg⟩ := hd
    rw [timelineLoop] at h
    rcases hs : scoreLoop sb pSeg.startBeat pSeg.endBeat
        (sliceFeats pb.analysisResults.features pSeg.startBeat pSeg.endBeat)
        sb.analysisResults.segments (none, (-1 : ℝ)) with e | best
    · rw [hs, exceptBind_err] at h
      cases h
    · rw [hs, exceptBind_ok] at h
      by_cases ht : truthyName best.1
      · rw [if_pos ht] at h
        rcases ih _ tl h item him with hacc | ⟨pn, ps, nm, s2, hpmem, hsmem, hitem, hgate⟩
        · rcases List.mem_append.mp hacc with hin | hnew
          · exact Or.inl hin
          · rcases scoreLoop_name_spec sb pSeg.startBeat pSeg.endBeat _ _ _ _ hs with
              hnone | ⟨nm, s2, hmem, hres, hgate⟩
            · rw [hnone] at ht
              cases ht
            · refine Or.inr ⟨segName, pSeg, nm, s2, List.mem_cons_self _ _, hmem, ?_, hgate⟩
              rw [List.mem_singleton.mp hnew, hres]
              rfl
        · exact Or.inr ⟨pn, ps, nm, s2, List.mem_cons_of_mem _ hpmem, hsmem, hitem, hgate⟩
      · rw [if_neg ht] at h
        rcases ih _ tl h item him with hacc | ⟨pn, ps, nm, s2, hpmem, hsmem, hitem, hgate⟩
        · exact Or.inl hacc
        · exact Or.inr ⟨pn, ps, nm, s2, List.mem_cons_of_mem _ hpmem, hsmem, hitem, hgate⟩

/-- C3: the duration-gate invariant.  Every item of a successfully created
recipe pairs a primary segment and a secondary segment whose beat lengths
differ by at most 8; no gate-violating pair ever reaches the timeline. -/
theorem c3_duration_gate_invariant (c : Creator) (pb sb : Brief) (r : Recipe)
    (hp : findMap c.primaryTitle c.briefs = some pb)
    (hs : findMap c.secondaryTitle c.briefs = some sb)
    (hr : createRecipe c = Except.ok r)
    (hndP : (pb.analysisResults.segments.map Prod.fst).Nodup)
    (hndS : (sb.analysisResults.segments.map Prod.fst).Nodup) :
    ∀ item ∈ r.timeline, ∀ pName pSeg sName sSeg,
      (pName, pSeg) ∈ pb.analysisResults.segments →
      (sName, sSeg) ∈ sb.analysisResults.segments →
      item.layers = [("instrumental", some ⟨c.primaryTitle, pName⟩),
                     ("vocals", some ⟨c.secondaryTitle, sName⟩)] →
      (((pSeg.endBeat : ℤ) - (pSeg.startBeat : ℤ)) -
        ((sSeg.endBeat : ℤ) - (sSeg.startBeat : ℤ))).natAbs ≤ 8 := by
  rw [createRecipe.eq_def, hp, hs] at hr
  simp only [] at hr
  rcases htl : timelineLoop c.primaryTitle c.secondaryTitle pb sb
      pb.analysisResults.segments [] with e | tl
  · rw [htl, exceptBind_err] at hr
    cases hr
  · rw [htl, exceptBind_ok] at hr
    have hrt : r.timeline = tl := by rw [← Except.ok.inj hr]
    intro item him pName pSeg sName sSeg hpm hsm hlay
    rw [hrt] at him
    rcases timelineLoop_mem _ _ _ _ _ _ _ htl item him with
      hacc | ⟨pn, ps, nm, s2, hpm0, hsm0, hitem, hgate⟩
    · cases hacc
    · rw [hitem] at hlay
      simp only [mkItem, List.cons.injEq, Prod.mk.injEq, Option.some.injEq,
        LayerSpec.mk.injEq, true_and, and_true] at hlay
      obtain ⟨hpn, hnm⟩ := hlay
      rw [← hpn] at hpm
      rw [← hnm] at hsm
      rw [nodupKeys_eq _ hndP pn pSeg ps hpm hpm0,
        nodupKeys_eq _ hndS nm sSeg s2 hsm hsm0]
      exact hgate

/-- The witness pair's mashability score is above the `-1` sentinel. -/
theorem mashScoreW_pos :
    (-1 : ℝ) < mashScoreVal (harmonicVal pFW.chroma sFW.chroma)
      pFW.rhythm.flatten sFW.rhythm.flatten (matAddV pFW.spectral sFW.spectral) := by
  have hepsR : (0 : ℝ) < epsR := by
    rw [epsR]
    norm_num [epsQ]
  have hharm : (0 : ℝ) ≤ harmonicVal pFW.chroma sFW.chroma := by
    have hnum : npMax (corrValid (sFW.chroma ++ sFW.chroma) pFW.chroma).flatten = 2 := by
      norm_num [pFW, sFW, briefW1, briefW2, feats2, sliceFeats, sliceCols,
        corrValid, corrEntry, rowsOf, colsOf, entryAt, npMax,
        Finset.sum_range_succ, Finset.sum_range_zero, List.flatten,
        List.range_succ, List.range_zero, List.map_append, List.map_cons,
        List.map_nil, List.append_nil, List.nil_append, List.foldl_cons,
        List.foldl_nil, List.getD_cons_zero, List.getD_cons_succ]
    rw [harmonicVal, hnum]
    have hden : (0 : ℝ) < Real.sqrt (sumSq pFW.chroma) * Real.sqrt (sumSq sFW.chroma) + epsR := by
      have h1 : (0 : ℝ) ≤ Real.sqrt (sumSq pFW.chroma) * Real.sqrt (sumSq sFW.chroma) :=
        mul_nonneg (Real.sqrt_nonneg _) (Real.sqrt_nonneg _)
      linarith
    positivity
  have hrhy : rhythmicVal pFW.rhythm.flatten sFW.rhythm.flatten = 0 := by
    have hdot : dotQ pFW.rhythm.flatten sFW.rhythm.flatten = 0 := by
      norm_num [pFW, sFW, briefW1, briefW2, feats2, sliceFeats, sliceCols,
        dotQ, List.flatten]
    rw [rhythmicVal, hdot]
    norm_num
  have hbal : spectralBal (matAddV pFW.spectral sFW.spectral) = 1 := by
    have hmat : matAddV pFW.spectral sFW.spectral = [[0, 0]] := by
      norm_num [pFW, sFW, briefW1, briefW2, feats2, sliceFeats, sliceCols,
        matAddV, rowsOf, colsOf, entryAt, List.range_succ]
    rw [hmat]
    have hsn : spectralNorm [[0, 0]] = [0] := by
      norm_num [spectralNorm, meanQ]
    rw [spectralBal, hsn]
    have hv : varQ [0] = 0 := by
      norm_num [varQ, meanQ]
    rw [hv]
    simp
  rw [mashScoreVal, hrhy, hbal]
  linarith

/-- The witness evaluation of `_calculate_mashability`. -/
theorem mashW_eq : mashability pFW sFW =
    Except.ok (mashScoreVal (harmonicVal pFW.chroma sFW.chroma)
      pFW.rhythm.flatten sFW.rhythm.flatten (matAddV pFW.spectral sFW.spectral)) := rfl

/-- The witness evaluation of the candidate loop. -/
theorem scoreLoopW_eq : scoreLoop briefW2 0 2 pFW [("s1", segW)] (none, (-1 : ℝ)) =
    Except.ok (some "s1", mashScoreVal (harmonicVal pFW.chroma sFW.chroma)
      pFW.rhythm.flatten sFW.rhythm.flatten (matAddV pFW.spectral sFW.spectral)) := by
  show (mashability pFW sFW) >>= (fun sc =>
      if ((none : Option String), (-1 : ℝ)).2 < sc
      then scoreLoop briefW2 0 2 pFW [] (some "s1", sc)
      else scoreLoop briefW2 0 2 pFW [] (none, (-1 : ℝ))) = _
  rw [mashW_eq, exceptBind_ok, if_pos mashScoreW_pos]
  rfl

/-- The witness evaluation of the segment loop: one item is emitted. -/
theorem timelineLoopW_eq :
    timelineLoop "P" "S" briefW1 briefW2 [("p1", segW)] [] = Except.ok [itemW] := by
  show (scoreLoop briefW2 0 2 pFW [("s1", segW)] (none, (-1 : ℝ))) >>= (fun best =>
      timelineLoop "P" "S" briefW1 briefW2 []
        (if truthyName best.1
         then [] ++ [mkItem "P" "S" "p1" (best.1.getD "") segW]
         else [])) = _
  rw [scoreLoopW_eq, exceptBind_ok]
  rfl

/-- The witness evaluation of `create_mashup_recipe`. -/
theorem createRecipeW_eq : createRecipe cW = Except.ok rW := by
  show (timelineLoop "P" "S" briefW1 briefW2 [("p1", segW)] []) >>= (fun tl =>
      Except.ok
        ({ version := 2,
           mashupTitle := "P" ++ " vs " ++ "S",
           concept := "A robustly generated mashup based on harmonic, rhythmic, and spectral compatibility.",
           targetTempo := briefW1.analysisResults.tempo,
           targetKey := briefW1.analysisResults.estimatedKey,
           timeline := tl,
           briefs := [briefW1, briefW2] } : Recipe)) = Except.ok rW
  rw [timelineLoopW_eq, exceptBind_ok]
  rfl

/-- C3 witness: the concrete creator `cW` successfully produces the
one-item recipe `rW`, and the theorem applied to that item bounds the
beat-length difference of its pairing by 8. -/
theorem c3_duration_gate_invariant_witness :
    (((segW.endBeat : ℤ) - (segW.startBeat : ℤ)) -
      ((segW.endBeat : ℤ) - (segW.startBeat : ℤ))).natAbs ≤ 8 :=
  c3_duration_gate_invariant cW briefW1 briefW2 rW rfl rfl createRecipeW_eq
    (by decide) (by decide) itemW (List.mem_cons_self _ _) "p1" segW "s1" segW
    (List.mem_cons_self _ _) (List.mem_cons_self _ _) rfl

/-- Dict insertion never empties a dict. -/
theorem dictInsert_ne_nil {α : Type} (k : String) (v : α) (m : List (String × α)) :
    dictInsert k v m ≠ [] := by
  cases m with
  | nil => simp [dictInsert]
  | cons hd tl =>
    rcases hd with ⟨k2, v2⟩
    rw [dictInsert]
    by_cases hk : k2 = k
    · rw [if_pos hk]; simp
    · rw [if_neg hk]; simp

/-- Folding a brief into any dict keeps the dict non-empty. -/
theorem insManyB_ne_nil (bs : List Brief) :
    ∀ m : List (String × Brief), m ≠ [] ∨ bs ≠ [] → insManyB m bs ≠ [] := by
  induction bs with
  | nil =>
    intro m h
    rcases h with hm | hb
    · exact hm
    · exact absurd rfl hb
  | cons hd tl ih =>
    intro m _
    rw [insManyB]
    exact ih _ (Or.inl (dictInsert_ne_nil _ _ _))

/-- The brief dict of a non-empty brief list is non-empty. -/
theorem mkBriefMap_ne_nil (bs : List Brief) (h : bs ≠ []) : mkBriefMap bs ≠ [] :=
  insManyB_ne_nil bs [] (Or.inr h)

/-- When every value of the dict is the same, Python `max` and `min` with
the value key agree (both return the first key). -/
theorem argFirst_const (l : List (String × ℚ)) (hl : l ≠ [])
    (hconst : ∀ p ∈ l, ∀ q ∈ l, p.2 = q.2) : argmaxFirst l = argminFirst l := by
  rcases l with _ | ⟨⟨k0, v0⟩, tl⟩
  · exact absurd rfl hl
  · rw [argmaxFirst, argminFirst]
    rw [argmaxGo_keep tl k0 v0 (fun p hp => not_lt.mpr (le_of_eq
      (hconst p (List.mem_cons_of_mem _ hp) (k0, v0) (List.mem_cons_self _ _))))]
    rw [argminGo_keep tl k0 v0 (fun p hp => not_lt.mpr (le_of_eq
      (hconst (k0, v0) (List.mem_cons_self _ _) p (List.mem_cons_of_mem _ hp))))]

/-- C9: when every supplied brief has the same tempo, role selection
resolves both roles to the same title (the first title of the brief dict),
construction succeeds without any distinctness check, and every layer of
every item of a created recipe draws from that single title — the recipe
pairs a song's segments with segments of that same song. -/
theorem c9_equal_tempos_same_role (bs : List Brief) (c : Creator)
    (hc : mkCreator bs = Except.ok c)
    (heq : ∀ b1 ∈ bs, ∀ b2 ∈ bs,
      b1.analysisResults.tempo = b2.analysisResults.tempo) :
    c.primaryTitle = c.secondaryTitle ∧
    (∀ pb sb r, findMap c.primaryTitle c.briefs = some pb →
      findMap c.secondaryTitle c.briefs = some sb →
      createRecipe c = Except.ok r →
      ∀ item ∈ r.timeline, ∀ role spec,
        (role, some spec) ∈ item.layers → spec.source = c.primaryTitle) := by
  have hlen : ¬ bs.length < 2 := by
    intro h
    rw [mkCreator, if_pos h] at hc
    cases hc
  rw [mkCreator, if_neg hlen] at hc
  have hceq := (Except.ok.inj hc).symm
  have hbsne : bs ≠ [] := by
    intro hnil
    rw [hnil] at hlen
    exact hlen (by decide)
  have hpt : c.primaryTitle = c.secondaryTitle := by
    rw [hceq]
    show argmaxFirst _ = argminFirst _
    apply argFirst_const
    · intro hmapnil
      exact mkBriefMap_ne_nil bs hbsne (List.map_eq_nil_iff.mp hmapnil)
    · rintro p hp q hq
      obtain ⟨⟨t1, b1⟩, hb1, rfl⟩ := List.mem_map.mp hp
      obtain ⟨⟨t2, b2⟩, hb2, rfl⟩ := List.mem_map.mp hq
      exact heq b1 (mkBriefMap_val_mem bs t1 b1 hb1) b2 (mkBriefMap_val_mem bs t2 b2 hb2)
  refine ⟨hpt, ?_⟩
  intro pb sb r hp hs hr item him role spec hmem
  rw [createRecipe.eq_def, hp, hs] at hr
  simp only [] at hr
  rcases htl : timelineLoop c.primaryTitle c.secondaryTitle pb sb
      pb.analysisResults.segments [] with e | tl
  · rw [htl, exceptBind_err] at hr
    cases hr
  · rw [htl, exceptBind_ok] at hr
    have hrt : r.timeline = tl := by rw [← Except.ok.inj hr]
    rw [hrt] at him
    rcases timelineLoop_mem _ _ _ _ _ _ _ htl item him with
      hacc | ⟨pn, ps, nm, s2, _, _, hitem, _⟩
    · cases hacc
    · rw [hitem] at hmem
      rw [mkItem] at hmem
      rcases List.mem_cons.mp hmem with h1 | h2
      · have := congrArg Prod.snd h1
        simp only [Option.some.injEq] at this
        rw [this]
      · rcases List.mem_cons.mp h2 with h3 | h4
        · have := congrArg Prod.snd h3
          simp only [Option.some.injEq] at this
          rw [this, hpt]
        · cases h4

/-- C9 witness: two equal-tempo briefs construct successfully and both
roles resolve to the first title. -/
theorem c9_equal_tempos_same_role_witness : cE.primaryTitle = cE.secondaryTitle :=
  (c9_equal_tempos_same_role [briefE1, briefE2] cE rfl (by decide)).1

/-- The initial accumulator bounds `foldl max` from below. -/
theorem le_foldl_max_init (l : List ℚ) : ∀ a : ℚ, a ≤ l.foldl max a := by
  induction l with
  | nil => intro a; exact le_refl a
  | cons x tl ih => intro a; exact le_trans (le_max_left a x) (ih (max a x))

/-- Every element bounds `foldl max` from below. -/
theorem le_foldl_max_of_mem (l : List ℚ) : ∀ (a x : ℚ), x ∈ l → x ≤ l.foldl max a := by
  induction l with
  | nil => intro a x hx; cases hx
  | cons y tl ih =>
    intro a x hx
    rcases List.mem_cons.mp hx with rfl | hxt
    · exact le_trans (le_max_right a x) (le_foldl_max_init tl (max a x))
    · exact ih (max a y) x hxt

/-- `foldl max` respects a common upper bound. -/
theorem foldl_max_le (l : List ℚ) : ∀ (a b : ℚ), a ≤ b → (∀ x ∈ l, x ≤ b) →
    l.foldl max a ≤ b := by
  induction l with
  | nil => intro a b ha _; exact ha
  | cons x tl ih =>
    intro a b ha h
    exact ih (max a x) b (max_le ha (h x (List.mem_cons_self _ _)))
      (fun y hy => h y (List.mem_cons_of_mem _ hy))

/-- `np.max` of a non-empty list equals any member that dominates the
list. -/
theorem npMax_eq (l : List ℚ) (b : ℚ) (hmem : b ∈ l) (hub : ∀ x ∈ l, x ≤ b) :
    npMax l = b := by
  rcases l with _ | ⟨x, xs⟩
  · cases hmem
  · rw [npMax]
    refine le_antisymm (foldl_max_le xs x b (hub x (List.mem_cons_self _ _))
      (fun y hy => hub y (List.mem_cons_of_mem _ hy))) ?_
    rcases List.mem_cons.mp hmem with rfl | hbt
    · exact le_foldl_max_init xs b
    · exact le_foldl_max_of_mem xs x b hbt

/-- A list sum of mapped values as a `Finset.range` sum over `getD`. -/
theorem listMap_sum_eq {α : Type} (f : α → ℚ) (d : α) (l : List α) :
    (l.map f).sum = ∑ j ∈ Finset.range l.length, f (l.getD j d) := by
  induction l with
  | nil => simp
  | cons a tl ih =>
    rw [List.map_cons, List.sum_cons, List.length_cons, Finset.sum_range_succ', ih]
    simp [List.getD_cons_succ, List.getD_cons_zero, add_comm]

/-- The squared Frobenius norm as a double `Finset.range` sum, for a
rectangular matrix. -/
theorem sumSq_eq_entry (C : Mat) (hrect : ∀ row ∈ C, row.length = colsOf C) :
    sumSq C = ∑ i ∈ Finset.range (rowsOf C), ∑ j ∈ Finset.range (colsOf C),
      (entryAt C i j) ^ 2 := by
  rw [sumSq, listMap_sum_eq _ ([] : List ℚ) C]
  refine Finset.sum_congr rfl ?_
  intro i hi
  rw [Finset.mem_range] at hi
  have hmem : C.getD i [] ∈ C := by
    rw [List.getD_eq_getElem?_getD, List.getElem?_eq_getElem hi]
    exact List.getElem_mem hi
  rw [listMap_sum_eq _ (0 : ℚ) (C.getD i []), hrect _ hmem]
  rfl

/-- Flattening a list of singleton rows is mapping. -/
theorem flatten_singleton_map (l : List ℕ) (f : ℕ → ℚ) :
    (l.map (fun k => [f k])).flatten = l.map f := by
  induction l with
  | nil => rfl
  | cons a tl ih => simp [ih]

/-- `a * b ≤ (a² + b²) / 2` over ℚ. -/
theorem mul_le_half_sq (a b : ℚ) : a * b ≤ (a ^ 2 + b ^ 2) / 2 := by
  nlinarith [sq_nonneg (a - b)]

/-- Row `k + i` of the self-stacked matrix `C ++ C` is row `(k+i) mod r`
of `C`. -/
theorem stackRow_eq (C : Mat) (k i : ℕ) (hk : k ≤ rowsOf C) (hi : i < rowsOf C) :
    (C ++ C).getD (k + i) [] = C.getD ((k + i) % rowsOf C) [] := by
  by_cases hlt : k + i < C.length
  · rw [show rowsOf C = C.length from rfl, List.getD_append _ _ _ _ hlt,
      Nat.mod_eq_of_lt hlt]
  · have hge : C.length ≤ k + i := Nat.le_of_not_lt hlt
    have hi2 : i < C.length := hi
    have hk2 : k ≤ C.length := hk
    have hsub : k + i - C.length < C.length := by omega
    rw [show rowsOf C = C.length from rfl, List.getD_append_right _ _ _ _ hge,
      Nat.mod_eq_sub_mod hge, Nat.mod_eq_of_lt hsub]

/-- A sum over a cyclic index rotation is the plain sum. -/
theorem sum_rotate (g : ℕ → ℚ) (r k : ℕ) (hk : k ≤ r) :
    ∑ i ∈ Finset.range r, g ((k + i) % r) = ∑ i ∈ Finset.range r, g i := by
  rcases Nat.eq_zero_or_pos r with rfl | hr
  · simp
  · rw [Finset.range_eq_Ico,
      ← Finset.sum_Ico_consecutive g (Nat.zero_le k) hk,
      ← Finset.sum_Ico_consecutive (fun i => g ((k + i) % r))
        (Nat.zero_le (r - k)) (Nat.sub_le r k)]
    have h1 : ∑ i ∈ Finset.Ico 0 (r - k), g ((k + i) % r) =
        ∑ j ∈ Finset.Ico k r, g j := by
      rw [Finset.sum_Ico_eq_sum_range, Finset.sum_Ico_eq_sum_range, Nat.sub_zero]
      refine Finset.sum_congr rfl ?_
      intro i hi
      rw [Finset.mem_range] at hi
      rw [Nat.zero_add, Nat.mod_eq_of_lt (by omega)]
    have h2 : ∑ i ∈ Finset.Ico (r - k) r, g ((k + i) % r) =
        ∑ j ∈ Finset.Ico 0 k, g j := by
      rw [Finset.sum_Ico_eq_sum_range, Finset.sum_Ico_eq_sum_range, Nat.sub_zero,
        show r - (r - k) = k by omega]
      refine Finset.sum_congr rfl ?_
      intro i hi
      rw [Finset.mem_range] at hi
      have hge : r ≤ k + (r - k + i) := by omega
      rw [Nat.zero_add, Nat.mod_eq_sub_mod hge, Nat.mod_eq_of_lt (by omega)]
      congr 1
      omega
    rw [h1, h2, add_comm]

/-- The squared entries of any window of `r` consecutive rows of the
self-stacked matrix sum to the squared Frobenius norm of `C`. -/
theorem stack_window_sumSq (C : Mat) (hrect : ∀ row ∈ C, row.length = colsOf C)
    (k : ℕ) (hk : k ≤ rowsOf C) :
    ∑ i ∈ Finset.range (rowsOf C), ∑ j ∈ Finset.range (colsOf C),
      (entryAt (C ++ C) (k + i) j) ^ 2 = sumSq C := by
  have hstep : ∀ i ∈ Finset.range (rowsOf C),
      ∑ j ∈ Finset.range (colsOf C), (entryAt (C ++ C) (k + i) j) ^ 2 =
      (fun t => ∑ j ∈ Finset.range (colsOf C), (entryAt C t j) ^ 2)
        ((k + i) % rowsOf C) := by
    intro i hi
    rw [Finset.mem_range] at hi
    refine Finset.sum_congr rfl ?_
    intro j _
    rw [entryAt, entryAt, stackRow_eq C k i hk hi]
  rw [Finset.sum_congr rfl hstep,
    sum_rotate (fun t => ∑ j ∈ Finset.range (colsOf C), (entryAt C t j) ^ 2)
      (rowsOf C) k hk,
    sumSq_eq_entry C hrect]

/-- Each lag of the self cross-correlation is bounded by the squared
Frobenius norm (arithmetic-geometric bound plus row rotation). -/
theorem corrEntry_self_le (C : Mat) (hrect : ∀ row ∈ C, row.length = colsOf C)
    (k : ℕ) (hk : k ≤ rowsOf C) :
    corrEntry (C ++ C) C k 0 ≤ sumSq C := by
  have hb : corrEntry (C ++ C) C k 0 ≤
      ∑ i ∈ Finset.range (rowsOf C), ∑ j ∈ Finset.range (colsOf C),
        ((entryAt (C ++ C) (k + i) j) ^ 2 + (entryAt C i j) ^ 2) / 2 := by
    rw [corrEntry]
    refine Finset.sum_le_sum ?_
    intro i _
    refine Finset.sum_le_sum ?_
    intro j _
    rw [Nat.zero_add]
    exact mul_le_half_sq _ _
  have hinner : ∀ i ∈ Finset.range (rowsOf C),
      ∑ j ∈ Finset.range (colsOf C),
        ((entryAt (C ++ C) (k + i) j) ^ 2 + (entryAt C i j) ^ 2) / 2 =
      ((∑ j ∈ Finset.range (colsOf C), (entryAt (C ++ C) (k + i) j) ^ 2) +
        (∑ j ∈ Finset.range (colsOf C), (entryAt C i j) ^ 2)) / 2 := by
    intro i _
    rw [← Finset.sum_div, Finset.sum_add_distrib]
  rw [Finset.sum_congr rfl hinner, ← Finset.sum_div, Finset.sum_add_distrib,
    stack_window_sumSq C hrect k hk, ← sumSq_eq_entry C hrect] at hb
  linarith

/-- The zero lag of the self cross-correlation attains the squared
Frobenius norm. -/
theorem corrEntry_self_zero (C : Mat) (hrect : ∀ row ∈ C, row.length = colsOf C) :
    corrEntry (C ++ C) C 0 0 = sumSq C := by
  rw [corrEntry, sumSq_eq_entry C hrect]
  refine Finset.sum_congr rfl ?_
  intro i hi
  rw [Finset.mem_range] at hi
  refine Finset.sum_congr rfl ?_
  intro j _
  rw [Nat.zero_add, Nat.zero_add, entryAt, entryAt,
    List.getD_append _ _ _ _ hi]
  ring

/-- The flattened self cross-correlation is the list of its `r + 1` lag
values. -/
theorem corrValid_self_flatten (C : Mat) (hC : C ≠ []) :
    (corrValid (C ++ C) C).flatten =
      (List.range (rowsOf C + 1)).map (fun k => corrEntry (C ++ C) C k 0) := by
  rw [corrValid]
  have h1 : rowsOf (C ++ C) - rowsOf C + 1 = rowsOf C + 1 := by
    have h : rowsOf (C ++ C) = rowsOf C + rowsOf C := List.length_append C C
    omega
  have h2 : colsOf (C ++ C) - colsOf C + 1 = 1 := by
    have hcc : colsOf (C ++ C) = colsOf C := by
      rcases C with _ | ⟨r0, rs⟩
      · exact absurd rfl hC
      · rfl
    omega
  rw [h1, h2]
  simp only [show (List.range 1 : List ℕ) = [0] from rfl, List.map_cons, List.map_nil]
  exact flatten_singleton_map _ _

/-- `np.max` of the self cross-correlation equals the squared Frobenius
norm: the self-aligned lag attains it and every rotated lag is bounded by
it. -/
theorem npMax_corr_self (C : Mat) (hrect : ∀ row ∈ C, row.length = colsOf C)
    (hC : C ≠ []) :
    npMax (corrValid (C ++ C) C).flatten = sumSq C := by
  rw [corrValid_self_flatten C hC]
  refine npMax_eq _ _ ?_ ?_
  · exact List.mem_map.mpr ⟨0, List.mem_range.mpr (by omega), corrEntry_self_zero C hrect⟩
  · intro x hx
    obtain ⟨k, hk, rfl⟩ := List.mem_map.mp hx
    rw [List.mem_range] at hk
    exact corrEntry_self_le C hrect k (by omega)

/-- C4 (amended): for a rectangular chroma slice `C` with squared
Frobenius norm `N = ‖C‖² ≥ 1`, the maximum of the self cross-correlation
equals `N` exactly (the self-aligned lag is the maximum over all cyclic
lags), and the harmonic sub-score of `(C, C)` equals `N / (N + 1e-9)` —
strictly below `1`, but within `1e-9` of `1`. -/
theorem c4_self_harmonic_amended (C : Mat)
    (hrect : ∀ row ∈ C, row.length = colsOf C)
    (hN : 1 ≤ sumSq C) :
    npMax (corrValid (C ++ C) C).flatten = sumSq C ∧
    harmonicSim C C = Except.ok (((sumSq C : ℚ) : ℝ) / (((sumSq C : ℚ) : ℝ) + epsR)) ∧
    ((sumSq C : ℚ) : ℝ) / (((sumSq C : ℚ) : ℝ) + epsR) < 1 ∧
    1 - ((sumSq C : ℚ) : ℝ) / (((sumSq C : ℚ) : ℝ) + epsR) ≤ epsR := by
  have hC : C ≠ [] := by
    intro h
    rw [h] at hN
    norm_num [sumSq] at hN
  have hmax := npMax_corr_self C hrect hC
  have hNR : (1 : ℝ) ≤ ((sumSq C : ℚ) : ℝ) := by exact_mod_cast hN
  have hNnn : (0 : ℝ) ≤ ((sumSq C : ℚ) : ℝ) := by linarith
  have hepsR : (0 : ℝ) < epsR := by
    rw [epsR]
    norm_num [epsQ]
  have hden : (0 : ℝ) < ((sumSq C : ℚ) : ℝ) + epsR := by linarith
  have hval : harmonicVal C C = ((sumSq C : ℚ) : ℝ) / (((sumSq C : ℚ) : ℝ) + epsR) := by
    rw [harmonicVal, hmax, Real.mul_self_sqrt hNnn]
  have hsim : harmonicSim C C =
      Except.ok (((sumSq C : ℚ) : ℝ) / (((sumSq C : ℚ) : ℝ) + epsR)) := by
    rw [harmonicSim, if_neg ?_, hval]
    intro hor
    rcases hor with hrow | hcol
    · have h := List.length_append C C
      have : rowsOf (C ++ C) = rowsOf C + rowsOf C := h
      omega
    · have hcc : colsOf (C ++ C) = colsOf C := by
        rcases C with _ | ⟨r0, rs⟩
        · exact absurd rfl hC
        · rfl
      omega
  refine ⟨hmax, hsim, ?_, ?_⟩
  · rw [div_lt_one hden]
    linarith
  · have heq : 1 - ((sumSq C : ℚ) : ℝ) / (((sumSq C : ℚ) : ℝ) + epsR) =
        epsR / (((sumSq C : ℚ) : ℝ) + epsR) := by
      field_simp
    rw [heq, div_le_iff₀ hden]
    nlinarith

/-- C4 counterexample: `chromaTiny` is a non-empty slice with non-zero
Frobenius norm, yet the harmonic sub-score of scoring it against itself is
`1/11` — nowhere near `1.0`, under any floating-point tolerance. -/
theorem c4_tiny_norm_not_near_one :
    sumSq chromaTiny ≠ 0 ∧
    harmonicSim chromaTiny chromaTiny = Except.ok ((1 : ℝ) / 11) ∧
    ((1 : ℝ) / 11) < 1 / 2 := by
  refine ⟨by norm_num [sumSq, chromaTiny], ?_, by norm_num⟩
  have hmax : npMax (corrValid (chromaTiny ++ chromaTiny) chromaTiny).flatten =
      1 / 10000000000 := by
    norm_num [chromaTiny, corrValid, corrEntry, rowsOf, colsOf, entryAt, npMax,
      Finset.sum_range_succ, Finset.sum_range_zero, List.flatten,
      List.range_succ, List.range_zero, List.map_append, List.map_cons,
      List.map_nil, List.append_nil, List.nil_append, List.foldl_cons,
      List.foldl_nil, List.getD_cons_zero, List.getD_cons_succ]
  have hsq : sumSq chromaTiny = 1 / 10000000000 := by
    norm_num [sumSq, chromaTiny]
  rw [harmonicSim, if_neg (by decide), harmonicVal, hmax, hsq,
    Real.mul_self_sqrt (by positivity)]
  congr 1
  rw [epsR]
  push_cast
  norm_num [epsQ]

/-- C4 witness: the amended theorem applied to the unit slice `[[1]]`. -/
theorem c4_self_harmonic_amended_witness :
    harmonicSim [[(1 : ℚ)]] [[(1 : ℚ)]] =
      Except.ok (((sumSq [[(1 : ℚ)]] : ℚ) : ℝ) /
        (((sumSq [[(1 : ℚ)]] : ℚ) : ℝ) + epsR)) :=
  (c4_self_harmonic_amended [[(1 : ℚ)]] (by decide) (by norm_num [sumSq])).2.1
